import Mathlib

/-!
# A shallow embedding of the shell (`main.c`, `vector.c`)

C strings are modelled as the list of their characters before the terminating
NUL; a `char*` that may be `NULL` is an `Option CStr`.  Heap allocation is
assumed to succeed.  Reads through a `NULL` pointer and writes outside an
array are faults, reported through `Except Fault`.
-/

namespace Shell

/-! ## C strings and the libc routines the shell uses -/

/-- A C string: its characters up to, and excluding, the terminating NUL. -/
abbrev CStr := List Char

/-- The NUL byte. -/
def NUL : Char := Char.ofNat 0

/-- Value of `#define CMD_SIZE 1024` in `main.c`. -/
def CMD_SIZE : Nat := 1024

/-- Value of `PATH_MAX` from `<linux/limits.h>`. -/
def PATH_MAX : Nat := 4096

/-- Value of `FILENAME_MAX` from glibc's `<stdio.h>`. -/
def FILENAME_MAX : Nat := 4096

/-- Value of `INT32_MAX` from `<stdint.h>`. -/
def INT32_MAX : Nat := 2147483647

/-- Faults of the C abstract machine that the embedding tracks. -/
inductive Fault where
  | nullDeref
  | outOfBounds
  | outOfFuel
deriving DecidableEq, Repr

deriving instance DecidableEq for Except

/-- Model of `strnlen(s, n)`. -/
def strnlen (s : CStr) (n : Nat) : Nat := min s.length n

/-- Model of `strncmp(a, b, n)`: the sign of the result, which is all the shell
looks at.  At most `n` bytes are compared, the terminating NUL included; the
terminator is smaller than every character of a string. -/
def strncmp : CStr → CStr → Nat → Ordering
  | _, _, 0 => .eq
  | [], [], _ + 1 => .eq
  | [], _ :: _, _ + 1 => .lt
  | _ :: _, [], _ + 1 => .gt
  | x :: xs, y :: ys, n + 1 =>
    if x = y then strncmp xs ys n else if x < y then .lt else .gt

/-! ## `vector.c` -/

/-- Model of `struct vector_t`: `arr` lists the `capacity` slots of the heap
array, a `NULL` slot being `none`. -/
structure Vector where
  size : Nat
  capacity : Nat
  arr : List (Option CStr)
deriving DecidableEq, Repr

/-- The slots `arr[0 .. size)` of a vector. -/
def Vector.elems (v : Vector) : List (Option CStr) := v.arr.take v.size

/-- Model of `vectorInit`: `calloc` gives `capacity` slots, all `NULL`. -/
def vectorInit (capacity : Nat) : Vector :=
  let capacity := if capacity = 0 then 8 else capacity
  { size := 0, capacity := capacity, arr := List.replicate capacity none }

/-- Model of `resizeArray`: a fresh zeroed array of twice the capacity receives
the slots `arr[0 .. size)`. -/
def resizeArray (v : Vector) : Vector :=
  { size := v.size
    capacity := v.capacity * 2
    arr := v.arr.take v.size ++ List.replicate (v.capacity * 2 - v.size) none }

/-- Model of `vectorInsert(pVector, string, size)`: the new slot holds a
`calloc(size + 1)` block into which `strncpy` copied at most `size` bytes.
The `bool` the C function returns is ignored by every caller and is not
modelled.  The model is that of a vector whose capacity is not 0, as every
vector `vectorInit` and `vectorInsert` return has; on a vector of capacity 0
the C function writes `arr[0]` into a block of no bytes, which this definition
does not show. -/
def vectorInsert (v : Vector) (string : Option CStr) (size : Nat) : Vector :=
  match string with
  | none => v
  | some s =>
    let v := if v.size ≥ v.capacity then resizeArray v else v
    { size := v.size + 1
      capacity := v.capacity
      arr := v.arr.set v.size (some (s.take size)) }

/-- A vector holding the tokens `toks`, with `extra` unused slots after them,
as `tokenizeInput` leaves it. -/
def tokenVector (toks : List CStr) (extra : Nat) : Vector :=
  { size := toks.length
    capacity := toks.length + extra
    arr := toks.map some ++ List.replicate extra none }

/-- The array after the inner loop `for(j = i; j < size - 1; j++) arr[j] = arr[j+1];`
of `vectorRemove`: the slot `size - 1` keeps its value. -/
def shiftLeft (arr : List (Option CStr)) (i size : Nat) : List (Option CStr) :=
  arr.take i ++ (arr.drop (i + 1)).take (size - (i + 1)) ++ arr.drop (size - 1)

/-- The search loop of `vectorRemove` from index `i` on, `left` being the
number of slots `size - i` still to visit: the array as the loop leaves it.
`strncmp` reads through the slot, and `arr[size] = NULL` after the shift is a
write at index `size`. -/
def vectorRemoveLoop (string : CStr) (n size : Nat) :
    Nat → Nat → List (Option CStr) → Except Fault (List (Option CStr))
  | 0, _, arr => .ok arr
  | left + 1, i, arr =>
    match arr.getD i none with
    | none => .error .nullDeref
    | some s =>
      if strncmp s string n = .eq then
        if size < arr.length then .ok ((shiftLeft arr i size).set size none)
        else .error .outOfBounds
      else vectorRemoveLoop string n size left (i + 1) arr

/-- Model of `vectorRemove(pVector, string, size)` for a non-`NULL` `pVector`:
the `bool` returned and the vector afterwards. -/
def vectorRemove (v : Vector) (string : Option CStr) (size : Nat) :
    Except Fault (Bool × Vector) :=
  match string with
  | none => .ok (false, v)
  | some string =>
    if v.size ≤ 0 then .ok (true, v)
    else
      match vectorRemoveLoop string size v.size v.size 0 v.arr with
      | .error e => .error e
      | .ok arr => .ok (true, { size := v.size - 1, capacity := v.capacity, arr := arr })

/-! ## `countPipes`, `checkRedirection` and the stage loop of `main` -/

/-- Loop of `countPipes` over the slots `arr[0 .. size)`. -/
def countPipesLoop : List (Option CStr) → Nat → Except Fault Nat
  | [], numPipes => .ok numPipes
  | none :: _, _ => .error .nullDeref
  | some tok :: rest, numPipes =>
    countPipesLoop rest (if strncmp tok "|".toList 2 = .eq then numPipes + 1 else numPipes)

/-- Model of `countPipes`. -/
def countPipes (tokens : Vector) : Except Fault Nat :=
  if tokens.size = 0 then .ok 0 else countPipesLoop tokens.elems 0

/-- Local state of `checkRedirection`: its by-value copy of the vector (the
array itself is shared with the caller) and its locals. -/
structure RedirState where
  arr : List (Option CStr)
  size : Nat
  inputRedir : Bool
  outputRedir : Bool
  inputFile : CStr
  outputFile : CStr
deriving DecidableEq, Repr

/-- The array after the inner loop `for(j = i + 2; j < size; j++) arr[j-2] = arr[j];`
followed by `arr[j-1] = NULL; arr[j-2] = NULL;` (where `j = size`). -/
def removePair (arr : List (Option CStr)) (i size : Nat) : List (Option CStr) :=
  arr.take i ++ (arr.drop (i + 2)).take (size - (i + 2)) ++ [none, none] ++ arr.drop size

/-- The scanning loop of `checkRedirection`, `fuel` bounding the number of
iterations left and `i` being the loop index. -/
def checkRedirectionLoop : Nat → Nat → RedirState → Except Fault RedirState
  | 0, i, st => if i < st.size then .error .outOfFuel else .ok st
  | fuel + 1, i, st =>
    if i < st.size then
      match st.arr.getD i none with
      | none => .error .nullDeref
      | some tok =>
        if !st.inputRedir && strncmp tok "<".toList 2 = .eq then
          if i + 1 < st.size then
            match st.arr.getD (i + 1) none with
            | none => .error .nullDeref
            | some file =>
              checkRedirectionLoop fuel (i + 1)
                { st with
                  arr := removePair st.arr i st.size
                  size := st.size - 2
                  inputRedir := true
                  inputFile := file.take FILENAME_MAX }
          else checkRedirectionLoop fuel (i + 1) st
        else if !st.outputRedir && strncmp tok ">".toList 2 = .eq then
          if i + 1 < st.size then
            match st.arr.getD (i + 1) none with
            | none => .error .nullDeref
            | some file =>
              checkRedirectionLoop fuel (i + 1)
                { st with
                  arr := removePair st.arr i st.size
                  size := st.size - 2
                  outputRedir := true
                  outputFile := file.take FILENAME_MAX }
          else checkRedirectionLoop fuel (i + 1) st
        else checkRedirectionLoop fuel (i + 1) st
    else .ok st

/-- What a call of `checkRedirection` leaves behind: the value it returns, the
shared array as the caller finds it, the callee's own `tokens.size` at return
(the caller's copy of `size` is not written), and the files opened over
standard input and standard output. -/
structure RedirResult where
  ret : Bool
  arr : List (Option CStr)
  size : Nat
  openedInput : Option CStr
  openedOutput : Option CStr
deriving DecidableEq, Repr

/-- Model of `checkRedirection(Vector tokens)`. -/
def checkRedirection (tokens : Vector) : Except Fault RedirResult :=
  if tokens.size = 0 then
    .ok { ret := false, arr := tokens.arr, size := tokens.size,
          openedInput := none, openedOutput := none }
  else
    match checkRedirectionLoop tokens.size 0
        { arr := tokens.arr, size := tokens.size, inputRedir := false,
          outputRedir := false, inputFile := [], outputFile := [] } with
    | .error e => .error e
    | .ok st =>
      .ok { ret := st.inputRedir || st.outputRedir
            arr := st.arr
            size := st.size
            openedInput := if st.inputRedir then some st.inputFile else none
            openedOutput := if st.outputRedir then some st.outputFile else none }

/-- The tokens a run of `checkRedirection` leaves: the slots below its final
`tokens.size`. -/
def RedirResult.tokensLeft (r : RedirResult) : Vector :=
  { size := r.size, capacity := r.arr.length, arr := r.arr }

/-- The loop of `main` (lines 103-110) that distributes the tokens over
`commands[idx]`, advancing `idx` at each `"|"`. -/
def splitLoop : List (Option CStr) → Nat → List Vector → Except Fault (List Vector)
  | [], _, commands => .ok commands
  | none :: _, _, _ => .error .nullDeref
  | some tok :: rest, idx, commands =>
    if strncmp tok "|".toList 2 = .eq then splitLoop rest (idx + 1) commands
    else
      match commands[idx]? with
      | none => .error .outOfBounds
      | some c =>
        splitLoop rest idx (commands.set idx (vectorInsert c (some tok) (strnlen tok CMD_SIZE)))

/-- The loop of `main` (lines 113-114) that copies every token to `commands[0]`;
`strnlen(tokens.arr[i], CMD_SIZE)` reads through the slot. -/
def copyLoop : List (Option CStr) → Vector → Except Fault Vector
  | [], c => .ok c
  | none :: _, _ => .error .nullDeref
  | some tok :: rest, c => copyLoop rest (vectorInsert c (some tok) (strnlen tok CMD_SIZE))

/-- Lines 89-115 of `main`: the array `commands[numCmds]` filled from `tokens`. -/
def splitStages (tokens : Vector) (numCmds : Nat) : Except Fault (List Vector) :=
  if numCmds > 1 then
    splitLoop tokens.elems 0 (List.replicate numCmds (vectorInit 0))
  else if numCmds = 1 then
    match copyLoop tokens.elems (vectorInit 0) with
    | .error e => .error e
    | .ok c => .ok [c]
  else .ok []

/-- Result of lines 86-115 of `main`. -/
structure Pipeline where
  numCmds : Nat
  redir : Bool
  tokens : Vector
  commands : List Vector
deriving DecidableEq, Repr

/-- Lines 86-115 of `main`: `countPipes`, then `checkRedirection` (which gets
the vector by value, so that `tokens.size` of `main` keeps its value while the
array is shared), then the stage loop. -/
def buildPipeline (tokens : Vector) : Except Fault Pipeline :=
  match countPipes tokens with
  | .error e => .error e
  | .ok numPipes =>
    let numCmds := numPipes + 1
    match checkRedirection tokens with
    | .error e => .error e
    | .ok r =>
      let tokens := { tokens with arr := r.arr }
      match splitStages tokens numCmds with
      | .error e => .error e
      | .ok commands =>
        .ok { numCmds := numCmds, redir := r.ret, tokens := tokens, commands := commands }

/-- The tokens of a list of stages. -/
def stageTokens (commands : List Vector) : List (List (Option CStr)) :=
  commands.map Vector.elems

/-! ## Character buffers and `findLongestCommonPrefix` -/

/-- The C string held by a character buffer: its bytes up to the first NUL. -/
def bufferString (buffer : List Char) : CStr := buffer.takeWhile (· ≠ NUL)

/-- The byte `s[i]` of a C string, the terminator being at index `s.length`. -/
def charAt (s : CStr) (i : Nat) : Char := s.getD i NUL

/-- Model of `strncpy(dst, src, n)`: exactly `n` bytes of `dst` are written,
the bytes of `src` and then NULs when `src` is shorter than `n`. -/
def strncpy (dst : List Char) (src : CStr) (n : Nat) : List Char :=
  src.take n ++ List.replicate (n - src.length) NUL ++ dst.drop n

/-- First loop of `findLongestCommonPrefix`: the least `strnlen(arr[i], PATH_MAX)`. -/
def minLenLoop : List (Option CStr) → Nat → Except Fault Nat
  | [], min => .ok min
  | none :: _, _ => .error .nullDeref
  | some s :: rest, min =>
    minLenLoop rest (if strnlen s PATH_MAX < min then strnlen s PATH_MAX else min)

/-- Inner loop of `findLongestCommonPrefix` over `arr[1 .. size)`: whether some
`arr[j][i]` differs from `c`. -/
def differsAt (c : Char) (i : Nat) : List (Option CStr) → Except Fault Bool
  | [] => .ok false
  | none :: _ => .error .nullDeref
  | some s :: rest => if charAt s i ≠ c then .ok true else differsAt c i rest

/-- Outer loop of `findLongestCommonPrefix`: the index `i` at which it is left,
by the `goto` or because `i` reached `min`. -/
def lcpLoop (first : CStr) (others : List (Option CStr)) (min : Nat) :
    Nat → Nat → Except Fault Nat
  | 0, i => .ok i
  | fuel + 1, i =>
    if i < min then
      match differsAt (charAt first i) i others with
      | .error e => .error e
      | .ok true => .ok i
      | .ok false => lcpLoop first others min fuel (i + 1)
    else .ok i

/-- Model of `findLongestCommonPrefix(autofills, buffer, size)` for a non-`NULL`
`buffer`: the bytes of the buffer at return. -/
def findLongestCommonPrefix (autofills : Vector) (buffer : List Char) (size : Nat) :
    Except Fault (List Char) :=
  match minLenLoop autofills.elems INT32_MAX with
  | .error e => .error e
  | .ok min =>
    match autofills.arr.getD 0 none with
    | none => .error .nullDeref
    | some first =>
      match lcpLoop first (autofills.elems.drop 1) min min 0 with
      | .error e => .error e
      | .ok i =>
        let count := if size < i then size else i
        .ok (strncpy buffer first count)

/-! ## Tokenizer, home-directory expansion and completion -/

/-- Value of the enumerator `_SC_LOGIN_NAME_MAX` in glibc's `<bits/confname.h>`,
which `main.c` uses as the size of its user-name arrays. -/
def SC_LOGIN_NAME_MAX : Nat := 71

/-- Value of `NAME_MAX` from `<linux/limits.h>`. -/
def NAME_MAX : Nat := 255

/-- Value of `S_IFDIR` from `<sys/stat.h>` (octal 0040000). -/
def S_IFDIR : Nat := 16384

/-- The string `strlcpy(dst, src, size)` leaves in `dst`, for `size > 0`. -/
def strlcpyString (src : CStr) (size : Nat) : CStr := src.take (size - 1)

/-- The string `strlcat(dst, src, size)` leaves in `dst`, given the string
`dst` held before. -/
def strlcatString (dst src : CStr) (size : Nat) : CStr :=
  if dst.length ≥ size then dst else dst ++ src.take (size - dst.length - 1)

/-- Model of `memset(buffer, 0, n)`. -/
def memsetZero (buffer : List Char) (n : Nat) : List Char :=
  List.replicate n NUL ++ buffer.drop n

/-- Model of `strlcat(dst, src, size)` on the bytes of the buffer `dst`. -/
def strlcat (dst : List Char) (src : CStr) (size : Nat) : List Char :=
  let dlen := strnlen (bufferString dst) size
  if dlen ≥ size then dst
  else
    let n := min src.length (size - dlen - 1)
    dst.take dlen ++ src.take n ++ [NUL] ++ dst.drop (dlen + n + 1)

/-- The successive results of `strtok(input, " \n")`: `cur` is the token being
read. -/
def strtokLoop : List Char → CStr → List CStr
  | [], cur => if cur = [] then [] else [cur]
  | c :: rest, cur =>
    if c = ' ' ∨ c = '\n' then
      if cur = [] then strtokLoop rest [] else cur :: strtokLoop rest []
    else strtokLoop rest (cur ++ [c])

/-- The tokens `strtok` cuts the string into. -/
def strtokTokens (input : CStr) : List CStr := strtokLoop input []

/-- Model of `tokenizeInput(input, size)` for a non-`NULL` `input`. -/
def tokenizeInput (input : CStr) (size : Nat) : Vector :=
  (strtokTokens input).foldl (fun tokens tok => vectorInsert tokens (some tok) (strnlen tok size))
    (vectorInit 0)

/-- What the process environment gives the shell: `getenv("HOME")`, and
`getpwuid(getuid())->pw_dir` (`none` where the C value is `NULL`). -/
structure Env where
  HOME : Option CStr
  pwDir : Option CStr

/-- Model of `homeDirSubstitution(pInput, size)` for a non-`NULL` `pInput`: the
string `*pInput` points to at return. -/
def homeDirSubstitution (env : Env) (input : CStr) (size : Nat) : Except Fault CStr :=
  if size = 0 then .ok input
  else if charAt input 0 = '~' then
    let uname := ((input.take (strnlen input CMD_SIZE)).drop 1).takeWhile (· ≠ '/')
    let j := 1 + uname.length
    if uname.length ≥ SC_LOGIN_NAME_MAX then .error .outOfBounds
    else
      let homeDir : Except Fault CStr :=
        if strnlen uname SC_LOGIN_NAME_MAX ≠ 0 then
          .ok (("/home/".toList ++ uname ++ "/".toList).take (PATH_MAX - 1))
        else
          match env.HOME with
          | none => .error .nullDeref
          | some home =>
            if strnlen (strlcpyString home PATH_MAX) PATH_MAX = 0 then
              match env.pwDir with
              | none => .error .nullDeref
              | some dir => .ok (strlcpyString dir PATH_MAX)
            else .ok (strlcpyString home PATH_MAX)
      match homeDir with
      | .error e => .error e
      | .ok homeDir =>
        let strSize := strnlen homeDir PATH_MAX + strnlen (input.drop j) CMD_SIZE + 1
        .ok (strlcatString (strlcpyString homeDir strSize) (input.drop j) strSize)
  else .ok input

/-- The loops `for(i = n - 1; i >= 0; i--) if(input[i] == '/') break;` of
`extractPath` and `tabComplete`: the index found, `none` standing for `-1`. -/
def scanBack (input : CStr) : Nat → Option Nat
  | 0 => none
  | k + 1 => if charAt input k = '/' then some k else scanBack input k

/-- Model of `extractPath(input, inputSize, path)` for non-`NULL` arguments:
the string in `*path` at return.  `*path` has `PATH_MAX` bytes. -/
def extractPath (env : Env) (input : CStr) (inputSize : Nat) : Except Fault CStr :=
  if inputSize = 0 then .ok ".".toList
  else
    match scanBack input inputSize with
    | none => .ok "./".toList
    | some i =>
      if i + 1 ≥ PATH_MAX then .error .outOfBounds
      else homeDirSubstitution env (input.take (i + 1)) (i + 1)

/-- The field `d_type` of a directory entry, as far as the shell looks at it. -/
inductive DType where
  | DT_DIR
  | DT_LNK
  | other
deriving DecidableEq, Repr

/-- A directory entry as `readdir` returns it, with the `st_mode` that `stat`
reports for it (`0` when `stat` fails). -/
structure Dirent where
  d_name : CStr
  d_type : DType
  st_mode : Nat
deriving DecidableEq, Repr

/-- The directories of the file system: for a path `opendir` accepts, the
entries in the order `readdir` returns them. -/
abbrev FileSystem := CStr → Option (List Dirent)

/-- Whether `findAutofillStrings` reports the entry with a `/` appended. -/
def reportedAsDirectory (dent : Dirent) : Bool :=
  let st_mode := if dent.d_type = .DT_LNK then dent.st_mode else 0
  dent.d_type = .DT_DIR || (st_mode &&& S_IFDIR) ≠ 0

/-- Body of the `readdir` loop of `findAutofillStrings` for one entry. -/
def autofillStep (input : CStr) (size : Nat) (autofills : Vector) (dent : Dirent) : Vector :=
  if size > strnlen dent.d_name NAME_MAX then autofills
  else if (List.range size).all (fun i => charAt input i = charAt dent.d_name i) then
    let len := strnlen dent.d_name 256 + 2
    if reportedAsDirectory dent then
      vectorInsert autofills
        (some (strlcatString (strlcpyString dent.d_name len) "/".toList len)) len
    else vectorInsert autofills (some dent.d_name) (strnlen dent.d_name NAME_MAX)
  else autofills

/-- Model of `findAutofillStrings(input, size, path)`. -/
def findAutofillStrings (fs : FileSystem) (input : CStr) (size : Nat) (path : CStr) : Vector :=
  match fs path with
  | none => { size := 0, capacity := 0, arr := [] }
  | some entries =>
    if size = 0 then { size := 0, capacity := 0, arr := [] }
    else entries.foldl (autofillStep input size) (vectorInit 0)

/-- The loops of `tabComplete` that append the earlier tokens to the buffer,
each followed by a space. -/
def appendTokens (size : Nat) : List (Option CStr) → List Char → Except Fault (List Char)
  | [], buffer => .ok buffer
  | none :: _, _ => .error .nullDeref
  | some tok :: rest, buffer =>
    appendTokens size rest (strlcat (strlcat buffer tok size) " ".toList size)

/-- The part common to both branches of `tabComplete`: the buffer is cleared,
the earlier tokens are appended, then the path unless it is a `./` the user
did not type. -/
def rebuildBuffer (buffer : List Char) (size i : Nat) (toks : Vector) (pathStr path : CStr) :
    Except Fault (List Char) :=
  match appendTokens size (toks.arr.take (toks.size - 1)) (memsetZero buffer i) with
  | .error e => .error e
  | .ok buffer =>
    if strncmp path "./".toList 3 = .eq then
      if "./".toList.isPrefixOf pathStr then .ok (strlcat buffer path size)
      else .ok buffer
    else .ok (strlcat buffer path size)

/-- Model of `tabComplete(buffer, size, i)` for a non-`NULL` `i`: the bytes of
the buffer and the value of `*i` at return. -/
def tabComplete (env : Env) (fs : FileSystem) (buffer : List Char) (size i : Nat) :
    Except Fault (List Char × Nat) :=
  let toks := tokenizeInput (strlcpyString (bufferString buffer) size) i
  if toks.size = 0 then .ok (buffer, i)
  else
    match toks.arr.getD (toks.size - 1) none with
    | none => .error .nullDeref
    | some pathStr =>
      match extractPath env pathStr (strnlen pathStr CMD_SIZE) with
      | .error e => .error e
      | .ok path =>
        let stub := strlcpyString
          (match scanBack pathStr (strnlen pathStr CMD_SIZE) with
            | none => pathStr
            | some j => pathStr.drop (j + 1)) PATH_MAX
        let autofill := findAutofillStrings fs stub (strnlen stub PATH_MAX) path
        if autofill.size = 1 then
          match rebuildBuffer buffer size i toks pathStr path with
          | .error e => .error e
          | .ok buffer =>
            match autofill.arr.getD 0 none with
            | none => .error .nullDeref
            | some fill =>
              let buffer := strlcat buffer fill size
              .ok (buffer, strnlen (bufferString buffer) size)
        else if autofill.size > 1 then
          match rebuildBuffer buffer size i toks pathStr path with
          | .error e => .error e
          | .ok buffer =>
            match findLongestCommonPrefix autofill (List.replicate FILENAME_MAX NUL)
                FILENAME_MAX with
            | .error e => .error e
            | .ok lcp =>
              let buffer := strlcat buffer (bufferString lcp) size
              .ok (buffer, strnlen (bufferString buffer) size)
        else .ok (buffer, i)

/-! ## History in the session loop -/

/-- Lines 77-79 of `main`: what submitting the line held in `input` does to
`history`. -/
def recordHistory (history : Vector) (input : CStr) : Except Fault Vector :=
  if strnlen input CMD_SIZE ≠ 0 then
    if history.size = 0 then
      .ok (vectorInsert history (some input) (strnlen input CMD_SIZE))
    else
      match history.arr.getD (history.size - 1) none with
      | none => .error .nullDeref
      | some last =>
        if strncmp input last (strnlen input CMD_SIZE) ≠ .eq then
          .ok (vectorInsert history (some input) (strnlen input CMD_SIZE))
        else .ok history
  else .ok history

/-- History after the lines `lines` were submitted one after the other to a
session holding `history`. -/
def runHistory : Vector → List CStr → Except Fault Vector
  | history, [] => .ok history
  | history, input :: lines =>
    match recordHistory history input with
    | .error e => .error e
    | .ok history => runHistory history lines

/-- History of a session, which starts from `vectorInit(128)`, after the lines
`lines` were submitted. -/
def sessionHistory (lines : List CStr) : Except Fault Vector :=
  runHistory (vectorInit 128) lines

/-! ## Builtins and the process orchestrator -/

/-- What the operating system answers to the calls of `checkBuiltinCmd` and
`processTokens`. -/
structure Os where
  /-- Result of `chdir(path)` in the working directory given first: the
  directory entered, `none` when the call fails. -/
  chdir : CStr → CStr → Option CStr
  /-- Whether `getcwd` fails in the given working directory for a reason other
  than the size of the buffer. -/
  getcwdFails : CStr → Bool
  /-- Whether `pipe` succeeds when `checkBuiltinCmd` calls it for stage `i`. -/
  execPipe : Nat → Bool
  /-- Whether `fork` succeeds when `checkBuiltinCmd` calls it for stage `i`. -/
  execFork : Nat → Bool
  /-- Whether `pipe` succeeds when `processTokens` calls it for stage `i`. -/
  spawnPipe : Nat → Bool
  /-- Whether `fork` succeeds when `processTokens` calls it for stage `i`. -/
  spawnFork : Nat → Bool

/-- Effects of the shell that can be observed from outside, in the order in
which they happen. -/
inductive Event where
  | printed (text : CStr)
  | perror (what : CStr)
  | executed (stage : Nat) (file : Option CStr) (argv : List (Option CStr))
  | spawned (stage : Nat) (file : Option CStr) (argv : List (Option CStr))
  | terminalRestored
deriving DecidableEq, Repr

/-- State of the session that the builtins read and write: the working
directory of the process, the `static char prevDir[PATH_MAX]` of
`checkBuiltinCmd` read as a string, and the effects so far. -/
structure Session where
  cwd : CStr
  prevDir : CStr
  events : List Event
deriving DecidableEq, Repr

/-- The session at the start of `main`, in the working directory `cwd`:
`prevDir` is zero-initialised. -/
def initialSession (cwd : CStr) : Session := { cwd := cwd, prevDir := [], events := [] }

/-- Model of `getcwd(buf, size)`: the string stored in `buf`, `none` when the
call returns `NULL`. -/
def getcwd (os : Os) (cwd : CStr) (size : Nat) : Option CStr :=
  if os.getcwdFails cwd ∨ cwd.length + 1 > size then none else some cwd

/-- The argument vector a child passes to `execvp`: the slots before the first
`NULL`. -/
def argvOf (arr : List (Option CStr)) : List (Option CStr) := arr.takeWhile (·.isSome)

/-- How the body of the loop of `checkBuiltinCmd` is left for one stage: the
loop goes on with the new value of `status`, the function returns, or the
process exits. -/
inductive StageStep where
  | next (status : Bool) (s : Session)
  | ret (status : Bool) (s : Session)
  | exit (s : Session)
deriving DecidableEq, Repr

/-- Body of the loop of `checkBuiltinCmd` for stage `i`. -/
def builtinStage (os : Os) (env : Env) (numCmds i : Nat) (stage : Vector) (s : Session) :
    Except Fault StageStep :=
  match stage.arr.getD 0 none with
  | none => .error .nullDeref
  | some cmd =>
    if strncmp cmd "cd".toList 3 = .eq then
      if stage.size = 1 then
        match getcwd os s.cwd PATH_MAX with
        | none => .ok (.ret false { s with events := s.events ++ [.perror "getcwd".toList] })
        | some temp =>
          match (match env.HOME with
            | none => none
            | some homeDir => os.chdir s.cwd homeDir) with
          | some dir => .ok (.next true { s with cwd := dir })
          | none => .ok (.next true { s with prevDir := strlcpyString temp PATH_MAX })
      else
        match stage.arr.getD 1 none with
        | none => .error .nullDeref
        | some arg =>
          if strncmp arg "-".toList 2 = .eq then
            if strnlen s.prevDir PATH_MAX = 0 then
              .ok (.next true { s with
                events := s.events ++ [.printed "cd: Previous Directory is not set\n".toList] })
            else
              let temp := strlcpyString s.prevDir PATH_MAX
              let prevDir :=
                match getcwd os s.cwd PATH_MAX with
                | none => s.prevDir
                | some dir => dir
              let cwd :=
                match os.chdir s.cwd temp with
                | none => s.cwd
                | some dir => dir
              .ok (.next true { s with cwd := cwd, prevDir := prevDir })
          else
            match getcwd os s.cwd PATH_MAX with
            | none => .ok (.ret false { s with events := s.events ++ [.perror "getcwd".toList] })
            | some temp =>
              match os.chdir s.cwd arg with
              | some dir =>
                .ok (.next true { s with cwd := dir, prevDir := strlcpyString temp PATH_MAX })
              | none =>
                .ok (.next true { s with
                  events := s.events ++
                    [.printed ("cd: ".toList ++ arg ++ " is not a file or directory\n".toList)] })
    else if strncmp cmd "exit".toList 5 = .eq then
      if stage.size ≠ 1 then
        .ok (.ret false { s with
          events := s.events ++ [.printed "exit: Command takes no arguments\n".toList] })
      else .ok (.exit { s with events := s.events ++ [.terminalRestored] })
    else if strncmp cmd "exec".toList 5 = .eq then
      if numCmds ≠ 1 ∧ os.execPipe i = false then
        .ok (.ret false { s with events := s.events ++ [.perror "pipe".toList] })
      else if os.execFork i then
        .ok (.next true { s with
          events := s.events ++
            [.executed i (stage.arr.getD 1 none) (argvOf (stage.arr.drop 1))] })
      else .ok (.next false s)
    else .ok (.next false s)

/-- How `checkBuiltinCmd` ends: it returns `status`, or the process has exited. -/
inductive BuiltinResult where
  | returned (status : Bool) (s : Session)
  | exited (s : Session)
deriving DecidableEq, Repr

/-- The loop of `checkBuiltinCmd` from stage `i` on; `status` is assigned anew
for every stage. -/
def checkBuiltinLoop (os : Os) (env : Env) (numCmds : Nat) :
    List Vector → Nat → Bool → Session → Except Fault BuiltinResult
  | [], _, status, s => .ok (.returned status s)
  | stage :: rest, i, _, s =>
    match builtinStage os env numCmds i stage s with
    | .error e => .error e
    | .ok (.next status s) => checkBuiltinLoop os env numCmds rest (i + 1) status s
    | .ok (.ret status s) => .ok (.returned status s)
    | .ok (.exit s) => .ok (.exited s)

/-- Model of `checkBuiltinCmd(tokens, numCmds)` for a non-`NULL` `tokens`. -/
def checkBuiltinCmd (os : Os) (env : Env) (tokens : List Vector) (numCmds : Nat)
    (s : Session) : Except Fault BuiltinResult :=
  if numCmds = 0 then .ok (.returned false s)
  else checkBuiltinLoop os env numCmds (tokens.take numCmds) 0 false s

/-- The loop of `processTokens` from stage `i` on: the parent's side, with one
`spawned` event for every child created. -/
def processLoop (os : Os) : List Vector → Nat → Session → Session
  | [], _, s => s
  | stage :: rest, i, s =>
    if stage.capacity = 0 then processLoop os rest (i + 1) s
    else if os.spawnPipe i = false then
      { s with events := s.events ++ [.perror "pipe".toList] }
    else if os.spawnFork i then
      processLoop os rest (i + 1)
        { s with events := s.events ++ [.spawned i (stage.arr.getD 0 none) (argvOf stage.arr)] }
    else processLoop os rest (i + 1) s

/-- Model of `processTokens(tokens, numCmds)`. -/
def processTokens (os : Os) (tokens : List Vector) (numCmds : Nat) (s : Session) : Session :=
  if numCmds = 0 then s else processLoop os (tokens.take numCmds) 0 s

/-- Lines 117-118 of `main`: `processTokens` runs when `checkBuiltinCmd` has
returned `false`. -/
def runCommands (os : Os) (env : Env) (commands : List Vector) (numCmds : Nat) (s : Session) :
    Except Fault BuiltinResult :=
  match checkBuiltinCmd os env commands numCmds s with
  | .error e => .error e
  | .ok (.returned true s) => .ok (.returned true s)
  | .ok (.returned false s) => .ok (.returned false (processTokens os commands numCmds s))
  | .ok (.exited s) => .ok (.exited s)

/-- The stages for which a child was spawned by `processTokens`, in order. -/
def spawnedStages (events : List Event) : List Nat :=
  events.filterMap (fun e =>
    match e with
    | .spawned i _ _ => some i
    | _ => none)

/-! ## The line editor `getInput` -/

/-- The locals of `getInput` that persist from key to key, with the bytes of
`buffer`. -/
structure EditorState where
  buffer : List Char
  i : Nat
  historyPos : Nat
deriving DecidableEq, Repr

/-- Model of `snprintf(buffer, size, "%s", s)` on the bytes of `buffer`. -/
def snprintfString (buffer : List Char) (size : Nat) (s : CStr) : List Char :=
  if size = 0 then buffer
  else s.take (size - 1) ++ [NUL] ++ buffer.drop ((s.take (size - 1)).length + 1)

/-- The Up-arrow branch of `getInput`. -/
def historyUp (size : Nat) (history : Vector) (st : EditorState) : Except Fault EditorState :=
  if st.historyPos + 1 > history.size then .ok st
  else
    match history.arr.getD (history.size - (st.historyPos + 1)) none with
    | none => .error .nullDeref
    | some entry =>
      let buffer := snprintfString st.buffer size entry
      .ok { buffer := buffer, i := strnlen (bufferString buffer) size,
            historyPos := st.historyPos + 1 }

/-- The Down-arrow branch of `getInput`. -/
def historyDown (size : Nat) (history : Vector) (st : EditorState) : Except Fault EditorState :=
  if st.historyPos = 0 then .ok st
  else if st.historyPos - 1 = 0 then
    .ok { buffer := memsetZero st.buffer size, i := 0, historyPos := st.historyPos - 1 }
  else
    match history.arr.getD (history.size - (st.historyPos - 1)) none with
    | none => .error .nullDeref
    | some entry =>
      let buffer := snprintfString st.buffer size entry
      .ok { buffer := buffer, i := strnlen (bufferString buffer) size,
            historyPos := st.historyPos - 1 }

/-- The backspace branch of `getInput`: `buffer[--i]` is set to a blank for the
redraw, then to NUL. -/
def backspace (st : EditorState) : Except Fault EditorState :=
  if st.i > 0 then
    if st.i - 1 < st.buffer.length then
      .ok { st with buffer := st.buffer.set (st.i - 1) NUL, i := st.i - 1 }
    else .error .outOfBounds
  else .ok st

/-- The last branch of `getInput`, `buffer[i++] = c;`. -/
def typeChar (st : EditorState) (c : Char) : Except Fault EditorState :=
  if st.i < st.buffer.length then
    .ok { st with buffer := st.buffer.set st.i c, i := st.i + 1 }
  else .error .outOfBounds

/-- How far `getInput` got on the keys read so far: it has returned (`true`
after a newline, `false` at end of input), or it waits for the next key. -/
inductive InputResult where
  | returned (goOn : Bool) (st : EditorState)
  | reading (st : EditorState)
deriving DecidableEq, Repr

/-- The loop of `getInput` on the characters `getc` delivers. -/
def getInputLoop (env : Env) (fs : FileSystem) (size : Nat) (history : Vector) :
    List Char → EditorState → Except Fault InputResult
  | [], st => .ok (.reading st)
  | c :: rest, st =>
    if c = '\n' then .ok (.returned true st)
    else if c = Char.ofNat 0x4 then .ok (.returned false st)
    else if c = '\t' then
      match tabComplete env fs st.buffer size st.i with
      | .error e => .error e
      | .ok (buffer, i) => getInputLoop env fs size history rest { st with buffer := buffer, i := i }
    else if c = Char.ofNat 0x1b then
      match rest with
      | [] => .ok (.reading st)
      | c2 :: rest2 =>
        if c2 = Char.ofNat 0x5b then
          match rest2 with
          | [] => .ok (.reading st)
          | c3 :: rest3 =>
            if c3 = 'A' then
              match historyUp size history st with
              | .error e => .error e
              | .ok st => getInputLoop env fs size history rest3 st
            else if c3 = 'B' then
              match historyDown size history st with
              | .error e => .error e
              | .ok st => getInputLoop env fs size history rest3 st
            else getInputLoop env fs size history rest3 st
        else getInputLoop env fs size history rest2 st
    else if c = Char.ofNat 0xc then getInputLoop env fs size history rest st
    else if c = Char.ofNat 0x7f ∨ c = Char.ofNat 0x8 then
      match backspace st with
      | .error e => .error e
      | .ok st => getInputLoop env fs size history rest st
    else
      match typeChar st c with
      | .error e => .error e
      | .ok st => getInputLoop env fs size history rest st

/-- Model of `getInput(buffer, size, history, pos)` for a non-`NULL` `buffer`,
on the characters `keys`. -/
def getInput (env : Env) (fs : FileSystem) (buffer : List Char) (size : Nat) (history : Vector)
    (keys : List Char) : Except Fault InputResult :=
  if size = 0 then .ok (.returned false { buffer := buffer, i := 0, historyPos := 0 })
  else getInputLoop env fs size history keys { buffer := buffer, i := 0, historyPos := 0 }

/-- Value of `S_IFMT` from `<sys/stat.h>` (octal 0170000). -/
def S_IFMT : Nat := 61440

/-- Value of `S_IFBLK` from `<sys/stat.h>` (octal 0060000). -/
def S_IFBLK : Nat := 24576

/-! ## Predicates and list-level views used in the statements and proofs -/

/-- Well-formed vectors: `arr` has `capacity` slots, `size` of them in use. -/
def Vector.WF (v : Vector) : Prop :=
  v.size ≤ v.capacity ∧ v.arr.length = v.capacity ∧ 0 < v.capacity

/-- A stage under construction: a well-formed vector without a `"|"` token. -/
def Vector.PipeFree (c : Vector) : Prop := c.WF ∧ some "|".toList ∉ c.elems

/-- Outcome of the list-level scan `extractRedir`. -/
structure Extracted where
  toks : List CStr
  inputRedir : Bool
  outputRedir : Bool
  inputFile : CStr
  outputFile : CStr
deriving DecidableEq, Repr

/-- List-level view of the scanning loop of `checkRedirection` on the tokens
from the loop index onwards: after a pair is removed at index `i`, the loop
goes on at `i + 1`, so that the token which moved to index `i` is kept without
being examined. -/
def extractRedir : List CStr → Bool → Bool → CStr → CStr → Extracted
  | [], inR, outR, inF, outF => ⟨[], inR, outR, inF, outF⟩
  | t :: rest, inR, outR, inF, outF =>
    if !inR && t = "<".toList then
      match rest with
      | [] => ⟨[t], inR, outR, inF, outF⟩
      | [file] => ⟨[], true, outR, file.take FILENAME_MAX, outF⟩
      | file :: u :: rest' =>
        let r := extractRedir rest' true outR (file.take FILENAME_MAX) outF
        { r with toks := u :: r.toks }
    else if !outR && t = ">".toList then
      match rest with
      | [] => ⟨[t], inR, outR, inF, outF⟩
      | [file] => ⟨[], inR, true, inF, file.take FILENAME_MAX⟩
      | file :: u :: rest' =>
        let r := extractRedir rest' inR true inF (file.take FILENAME_MAX)
        { r with toks := u :: r.toks }
    else
      let r := extractRedir rest inR outR inF outF
      { r with toks := t :: r.toks }

/-- A token is a redirection operator. -/
def isRedirOp (t : CStr) : Prop := t = "<".toList ∨ t = ">".toList

instance (t : CStr) : Decidable (isRedirOp t) := by unfold isRedirOp; infer_instance

/-- Every redirection operator of the list, if any, is its last token. -/
def OnlyLastOp : List CStr → Prop
  | [] => True
  | t :: rest => (isRedirOp t → rest = []) ∧ OnlyLastOp rest

/-- No redirection operator stands two places after another one, that is,
directly after the filename token of another one. -/
def NoOpAfterFile (toks : List CStr) : Prop :=
  ∀ (i : Nat) (a b : CStr), toks[i]? = some a → toks[i + 2]? = some b →
    isRedirOp a → ¬ isRedirOp b

/-- The vector `h` holds the entries `entries`, none of them empty and no two
consecutive ones equal. -/
def HistoryOK (h : Vector) (entries : List CStr) : Prop :=
  h.WF ∧ h.elems = entries.map some ∧ [] ∉ entries ∧ entries.Chain' (· ≠ ·)

/-- A character buffer of `size` bytes holding the string `t` followed by
NULs only. -/
def zeroPadded (t : CStr) (size : Nat) : List Char := t ++ List.replicate (size - t.length) NUL

/-- An environment in which `HOME` is `/home/u`. -/
def homeEnv : Env := { HOME := some "/home/u".toList, pwDir := some "/home/u".toList }

/-- A file system whose only directories are `/home/u/` and `./`, each holding
the one regular file `readme.md`. -/
def readmeFs : FileSystem := fun path =>
  if path = "/home/u/".toList ∨ path = "./".toList then
    some [{ d_name := "readme.md".toList, d_type := .other, st_mode := 0 }]
  else none

/-- An operating system in which every call succeeds and `chdir(path)` enters
the directory named `path`, for every path shorter than `PATH_MAX`. -/
def plainOs : Os :=
  { chdir := fun _ path => if path.length < PATH_MAX then some path else none
    getcwdFails := fun _ => false
    execPipe := fun _ => true
    execFork := fun _ => true
    spawnPipe := fun _ => true
    spawnFork := fun _ => true }

/-- The stage with the tokens `toks`, at index `i`, is handled as a builtin:
its first token is `cd`, or it is `exec` and the child was created. -/
def handledAsBuiltin (os : Os) (i : Nat) (toks : List CStr) : Bool :=
  decide (toks.head? = some "cd".toList) ||
    (decide (toks.head? = some "exec".toList) && os.execFork i)

/-- The bytes the terminal sends for a run of arrow keys, `true` being Up
(`ESC [ A`) and `false` being Down (`ESC [ B`). -/
def arrowKeys : List Bool → List Char
  | [] => []
  | up :: ks => Char.ofNat 0x1b :: Char.ofNat 0x5b :: (if up then 'A' else 'B') :: arrowKeys ks

/-- The `k`-th most recent of the lines `entries`, which are listed oldest
first: the string at `history.arr[history.size - k]`. -/
def nthRecent (entries : List CStr) (k : Nat) : CStr := entries.getD (entries.length - k) []

/-- The delimiters of `strtok(input, " \n")` in `tokenizeInput`. -/
def isDelimiter (c : Char) : Bool := decide (c = ' ' ∨ c = '\n')

/-- The whitespace and line-terminator characters, in the words of the
specification: the characters `isspace` of `<ctype.h>` accepts, which are the
space, `\t`, `\n`, `\v`, `\f` and `\r`. -/
def isWhitespace (c : Char) : Bool :=
  decide (c = ' ' ∨ c = '\t' ∨ c = '\n' ∨ c = Char.ofNat 0x0b ∨ c = Char.ofNat 0x0c ∨ c = '\r')

/-- The maximal runs of characters that `delim` rejects, in the order in which
they occur: the non-empty pieces between the characters `delim` accepts. -/
def maximalRuns (delim : Char → Bool) (input : List Char) : List (List Char) :=
  (input.splitOnP delim).filter (fun t => !t.isEmpty)

/-! ## Facts about the libc models and the vector -/

theorem strncmp_single (c : Char) (t : CStr) : strncmp t [c] 2 = .eq ↔ t = [c] := by
  cases t with
  | nil => simp [strncmp]
  | cons x xs =>
    cases xs with
    | nil => by_cases h : x = c <;> simp [strncmp, h]
    | cons y ys => by_cases h : x = c <;> simp [strncmp, h]

theorem strncmp_eq_iff (a b : CStr) (n : Nat) : strncmp a b n = .eq ↔ a.take n = b.take n := by
  induction n generalizing a b with
  | zero => simp [strncmp]
  | succ n ih =>
    cases a with
    | nil => cases b <;> simp [strncmp]
    | cons x xs =>
      cases b with
      | nil => simp [strncmp]
      | cons y ys =>
        by_cases h : x = y
        · simp [strncmp, h, ih]
        · simp [strncmp, h]

theorem take_succ_set {α : Type} (l : List α) (i : Nat) (x : α) (h : i < l.length) :
    (l.set i x).take (i + 1) = l.take i ++ [x] := by
  induction l generalizing i with
  | nil => simp at h
  | cons a l ih =>
    cases i with
    | zero => simp
    | succ i => simp at h; simp [ih i h]

theorem vectorInit_WF (n : Nat) : (vectorInit n).WF := by
  unfold vectorInit Vector.WF
  by_cases h : n = 0
  · simp [h]
  · simp [h]; omega

theorem vectorInit_elems (n : Nat) : (vectorInit n).elems = [] := by
  simp [vectorInit, Vector.elems]

theorem vectorInsert_WF (v : Vector) (h : v.WF) (s : CStr) (n : Nat) :
    (vectorInsert v (some s) n).WF := by
  obtain ⟨h1, h2, h3⟩ := h
  unfold vectorInsert Vector.WF
  by_cases hc : v.size ≥ v.capacity
  · simp [hc, resizeArray]; omega
  · simp [hc]; omega

theorem vectorInsert_elems (v : Vector) (h : v.WF) (s : CStr) (n : Nat) :
    (vectorInsert v (some s) n).elems = v.elems ++ [some (s.take n)] := by
  obtain ⟨h1, h2, h3⟩ := h
  unfold vectorInsert Vector.elems
  by_cases hc : v.size ≥ v.capacity
  · have hsz : v.size = v.capacity := by omega
    have hlen : (List.take v.size v.arr).length = v.size := by simp; omega
    simp only [hc, if_true, resizeArray]
    rw [List.set_append_right _ _ (by omega), List.take_append_eq_append_take]
    simp [hlen]
    have : v.capacity * 2 - v.size = (v.capacity * 2 - v.size - 1) + 1 := by omega
    rw [this, List.replicate_succ]
    simp
  · simp only [hc, if_false]
    have hlt : v.size < v.arr.length := by omega
    exact take_succ_set _ _ _ hlt

/-! ## The pipeline builder -/

theorem tokenVector_elems (toks : List CStr) (extra : Nat) :
    (tokenVector toks extra).elems = toks.map some := by
  simp [tokenVector, Vector.elems, List.take_append_eq_append_take]

theorem countPipesLoop_map (toks : List CStr) (n : Nat) :
    countPipesLoop (toks.map some) n = .ok (n + toks.count "|".toList) := by
  induction toks generalizing n with
  | nil => simp [countPipesLoop]
  | cons t toks ih =>
    have hp : "|".toList = ['|'] := rfl
    simp only [List.map_cons, countPipesLoop, ih, hp, strncmp_single, List.count_cons]
    by_cases h : t = ['|']
    · simp [h]; omega
    · simp [h]

theorem countPipes_tokenVector (toks : List CStr) (extra : Nat) :
    countPipes (tokenVector toks extra) = .ok (toks.count "|".toList) := by
  unfold countPipes
  rw [tokenVector_elems, countPipesLoop_map]
  cases toks <;> simp [tokenVector]

theorem take_strnlen_ne_single (c : Char) (t : CStr) (h : t ≠ [c]) :
    t.take (strnlen t CMD_SIZE) ≠ [c] := by
  intro hc
  have hl := congrArg List.length hc
  simp [strnlen, CMD_SIZE] at hl
  have : t.length = 1 := by omega
  rw [List.take_of_length_le (by simp [strnlen, this, CMD_SIZE])] at hc
  exact h hc

theorem vectorInsert_PipeFree (c : Vector) (h : c.PipeFree) (t : CStr) (ht : t ≠ "|".toList) :
    (vectorInsert c (some t) (strnlen t CMD_SIZE)).PipeFree := by
  refine ⟨vectorInsert_WF c h.1 t _, ?_⟩
  rw [vectorInsert_elems c h.1]
  simp only [List.mem_append, List.mem_singleton, not_or, Option.some.injEq]
  exact ⟨h.2, fun hc => take_strnlen_ne_single '|' t ht hc.symm⟩

theorem splitLoop_spec (toks : List CStr) (idx : Nat) (commands : List Vector)
    (hidx : idx + toks.count "|".toList < commands.length)
    (hc : ∀ c ∈ commands, c.PipeFree) :
    ∃ commands', splitLoop (toks.map some) idx commands = .ok commands' ∧
      commands'.length = commands.length ∧ ∀ c ∈ commands', c.PipeFree := by
  induction toks generalizing idx commands with
  | nil => exact ⟨commands, by simp [splitLoop], rfl, hc⟩
  | cons t toks ih =>
    have hp : "|".toList = ['|'] := rfl
    simp only [List.map_cons, splitLoop, hp, strncmp_single]
    simp only [List.count_cons, hp] at hidx
    by_cases h : t = ['|']
    · simp only [h, if_true]
      simp [h] at hidx
      exact ih (idx + 1) commands (by rw [hp]; omega) hc
    · simp only [h, if_false]
      have h' : ¬ (t == ['|']) = true := by simpa using h
      simp only [h', if_false, Nat.add_zero] at hidx
      have hlt : idx < commands.length := by omega
      rw [List.getElem?_eq_getElem hlt]
      simp only
      obtain ⟨commands', h1, h2, h3⟩ := ih idx
        (commands.set idx (vectorInsert commands[idx] (some t) (strnlen t CMD_SIZE)))
        (by rw [hp]; simpa using hidx)
        (by
          intro c hmem
          rcases List.mem_or_eq_of_mem_set hmem with hm | he
          · exact hc c hm
          · rw [he]
            exact vectorInsert_PipeFree _ (hc _ (List.getElem_mem hlt)) t (by rw [hp]; exact h))
      exact ⟨commands', h1, by simpa using h2, h3⟩

theorem copyLoop_spec (toks : List CStr) (c : Vector) (hc : c.WF) :
    ∃ c', copyLoop (toks.map some) c = .ok c' ∧ c'.WF ∧
      c'.elems = c.elems ++ toks.map (fun t => some (t.take (strnlen t CMD_SIZE))) := by
  induction toks generalizing c with
  | nil => exact ⟨c, by simp [copyLoop], hc, by simp⟩
  | cons t toks ih =>
    obtain ⟨c', h1, h2, h3⟩ := ih (vectorInsert c (some t) (strnlen t CMD_SIZE))
      (vectorInsert_WF c hc t _)
    refine ⟨c', by simpa [copyLoop] using h1, h2, ?_⟩
    rw [h3, vectorInsert_elems c hc]
    simp

/-- The stage loop of `main` on a token array without a `NULL` slot, which is
the array as `tokenizeInput` built it: for a token sequence with `k` tokens
equal to `"|"`, `countPipes` returns `k` and the loop, run with
`numCmds = k + 1`, returns `k + 1` stages, none of which holds a token equal to
`"|"`.  The call of `checkRedirection` between the two is not part of this
statement. -/
theorem pipeline_stage_count (toks : List CStr) (extra : Nat) :
    ∃ commands,
      countPipes (tokenVector toks extra) = .ok (toks.count "|".toList) ∧
      splitStages (tokenVector toks extra) (toks.count "|".toList + 1) = .ok commands ∧
      commands.length = toks.count "|".toList + 1 ∧
      ∀ c ∈ commands, some "|".toList ∉ c.elems := by
  have hinit : (vectorInit 0).PipeFree := ⟨vectorInit_WF 0, by simp [vectorInit_elems]⟩
  by_cases hk : toks.count "|".toList = 0
  · obtain ⟨c', h1, h2, h3⟩ := copyLoop_spec toks (vectorInit 0) (vectorInit_WF 0)
    refine ⟨[c'], countPipes_tokenVector toks extra, ?_, by rw [hk]; rfl, ?_⟩
    · rw [splitStages, hk, tokenVector_elems, h1]
      simp
    · intro c hmem
      simp only [List.mem_singleton] at hmem
      subst hmem
      rw [h3, vectorInit_elems]
      simp only [List.nil_append, List.mem_map, Option.some.injEq, not_exists, not_and]
      intro t ht hcontra
      have hne : t ≠ "|".toList := by
        intro he
        rw [he] at ht
        exact (List.count_pos_iff.mpr ht).ne (hk.symm)
      exact take_strnlen_ne_single '|' t hne hcontra
  · obtain ⟨commands', h1, h2, h3⟩ := splitLoop_spec toks 0
      (List.replicate (toks.count "|".toList + 1) (vectorInit 0)) (by simp)
      (by intro c hmem; rw [(List.mem_replicate.mp hmem).2]; exact hinit)
    refine ⟨commands', countPipes_tokenVector toks extra, ?_, by simpa using h2, ?_⟩
    · have : toks.count "|".toList + 1 > 1 := by omega
      simp only [splitStages, this, if_true, tokenVector_elems]
      exact h1
    · exact fun c hmem => (h3 c hmem).2

/-! ## `checkRedirection` and its list-level view -/

theorem getD_slot (pre suf : List CStr) (t : CStr) (P : List (Option CStr)) :
    ((pre ++ t :: suf).map some ++ P).getD pre.length none = some t := by
  induction pre with
  | nil => simp
  | cons a pre ih => simpa using ih

theorem removePair_slots (pre rest : List CStr) (t file : CStr) (P : List (Option CStr)) :
    removePair ((pre ++ t :: file :: rest).map some ++ P) pre.length
        (pre ++ t :: file :: rest).length
      = (pre ++ rest).map some ++ (none :: none :: P) := by
  unfold removePair
  have e1 : (pre ++ t :: file :: rest).map some ++ P
      = pre.map some ++ ([some t, some file] ++ (rest.map some ++ P)) := by simp
  have e2 : (pre ++ t :: file :: rest).map some ++ P
      = (pre.map some ++ [some t, some file]) ++ (rest.map some ++ P) := by simp
  have e3 : (pre ++ t :: file :: rest).map some ++ P
      = (pre ++ t :: file :: rest).map some ++ P := rfl
  have h1 : List.take pre.length ((pre ++ t :: file :: rest).map some ++ P) = pre.map some := by
    rw [e1]; exact List.take_left' (by simp)
  have h2 : List.drop (pre.length + 2) ((pre ++ t :: file :: rest).map some ++ P)
      = rest.map some ++ P := by
    rw [e2]; exact List.drop_left' (by simp)
  have h3 : List.drop (pre ++ t :: file :: rest).length ((pre ++ t :: file :: rest).map some ++ P)
      = P := List.drop_left' (by simp)
  have h4 : (pre ++ t :: file :: rest).length - (pre.length + 2) = rest.length := by
    simp; omega
  rw [h1, h2, h3, h4]
  have h5 : List.take rest.length (rest.map some ++ P) = rest.map some :=
    List.take_left' (by simp)
  rw [h5]
  simp

theorem checkRedirectionLoop_done (fuel i : Nat) (st : RedirState) (h : ¬ i < st.size) :
    checkRedirectionLoop fuel i st = .ok st := by
  cases fuel <;> simp [checkRedirectionLoop, h]

theorem extractRedir_other (t : CStr) (rest : List CStr) (inR outR : Bool) (inF outF : CStr)
    (c1 : ¬ (!inR && decide (t = "<".toList)) = true)
    (c2 : ¬ (!outR && decide (t = ">".toList)) = true) :
    extractRedir (t :: rest) inR outR inF outF
      = { extractRedir rest inR outR inF outF with
          toks := t :: (extractRedir rest inR outR inF outF).toks } := by
  conv_lhs => rw [extractRedir.eq_def]
  simp only
  rw [if_neg c1, if_neg c2]

theorem extractRedir_in (t : CStr) (rest : List CStr) (inR outR : Bool) (inF outF : CStr)
    (c1 : (!inR && decide (t = "<".toList)) = true) :
    extractRedir (t :: rest) inR outR inF outF
      = match rest with
        | [] => ⟨[t], inR, outR, inF, outF⟩
        | [file] => ⟨[], true, outR, file.take FILENAME_MAX, outF⟩
        | file :: u :: rest' =>
          { extractRedir rest' true outR (file.take FILENAME_MAX) outF with
            toks := u :: (extractRedir rest' true outR (file.take FILENAME_MAX) outF).toks } := by
  conv_lhs => rw [extractRedir.eq_def]
  simp only
  rw [if_pos c1]

theorem extractRedir_out (t : CStr) (rest : List CStr) (inR outR : Bool) (inF outF : CStr)
    (c1 : ¬ (!inR && decide (t = "<".toList)) = true)
    (c2 : (!outR && decide (t = ">".toList)) = true) :
    extractRedir (t :: rest) inR outR inF outF
      = match rest with
        | [] => ⟨[t], inR, outR, inF, outF⟩
        | [file] => ⟨[], inR, true, inF, file.take FILENAME_MAX⟩
        | file :: u :: rest' =>
          { extractRedir rest' inR true inF (file.take FILENAME_MAX) with
            toks := u :: (extractRedir rest' inR true inF (file.take FILENAME_MAX)).toks } := by
  conv_lhs => rw [extractRedir.eq_def]
  simp only
  rw [if_neg c1, if_pos c2]

theorem extractRedir_length_le (suf : List CStr) (inR outR : Bool) (inF outF : CStr) :
    (extractRedir suf inR outR inF outF).toks.length ≤ suf.length := by
  suffices H : ∀ n (suf : List CStr), suf.length ≤ n → ∀ inR outR inF outF,
      (extractRedir suf inR outR inF outF).toks.length ≤ suf.length from
    H suf.length suf le_rfl inR outR inF outF
  intro n
  induction n with
  | zero =>
    intro suf h
    have : suf = [] := List.length_eq_zero.mp (by omega)
    subst this
    simp [extractRedir]
  | succ n ih =>
    intro suf h inR outR inF outF
    match suf, h with
    | [], _ => simp [extractRedir]
    | [t], _ =>
      unfold extractRedir
      split
      · simp
      · split
        · simp
        · simp [extractRedir]
    | [t, file], h =>
      simp only [List.length_cons, List.length_nil] at h
      unfold extractRedir
      split
      · simp
      · split
        · simp
        · have := ih [file] (by simp; omega) inR outR inF outF
          simp at this ⊢
          omega
    | t :: file :: u :: rest, h =>
      simp only [List.length_cons] at h
      unfold extractRedir
      split
      · have := ih rest (by omega) true outR (file.take FILENAME_MAX) outF
        simp; omega
      · split
        · have := ih rest (by omega) inR true inF (file.take FILENAME_MAX)
          simp; omega
        · have := ih (file :: u :: rest) (by simp; omega) inR outR inF outF
          simp at this ⊢
          omega

theorem checkRedirectionLoop_refines (fuel : Nat) :
    ∀ (pre suf : List CStr) (P : List (Option CStr)) (inR outR : Bool) (inF outF : CStr),
      suf.length ≤ fuel →
      checkRedirectionLoop fuel pre.length
          { arr := (pre ++ suf).map some ++ P, size := (pre ++ suf).length, inputRedir := inR,
            outputRedir := outR, inputFile := inF, outputFile := outF }
        = .ok
          { arr := (pre ++ (extractRedir suf inR outR inF outF).toks).map some ++
              (List.replicate (suf.length - (extractRedir suf inR outR inF outF).toks.length) none
                ++ P)
            size := (pre ++ (extractRedir suf inR outR inF outF).toks).length
            inputRedir := (extractRedir suf inR outR inF outF).inputRedir
            outputRedir := (extractRedir suf inR outR inF outF).outputRedir
            inputFile := (extractRedir suf inR outR inF outF).inputFile
            outputFile := (extractRedir suf inR outR inF outF).outputFile } := by
  induction fuel with
  | zero =>
    intro pre suf P inR outR inF outF h
    have : suf = [] := List.length_eq_zero.mp (by omega)
    subst this
    simp [checkRedirectionLoop, extractRedir]
  | succ fuel ih =>
    intro pre suf P inR outR inF outF h
    match suf, h with
    | [], _ => simp [checkRedirectionLoop, extractRedir]
    | t :: rest, h =>
      have hlt : pre.length < (pre ++ t :: rest).length := by simp
      unfold checkRedirectionLoop
      simp only [hlt, if_true, getD_slot]
      have e1 : "<".toList = ['<'] := rfl
      have e2 : ">".toList = ['>'] := rfl
      have keep : ∀ (inR outR : Bool) (inF outF : CStr),
          checkRedirectionLoop fuel (pre.length + 1)
            { arr := (pre ++ t :: rest).map some ++ P, size := (pre ++ t :: rest).length,
              inputRedir := inR, outputRedir := outR, inputFile := inF, outputFile := outF }
          = .ok
            { arr := (pre ++ t :: (extractRedir rest inR outR inF outF).toks).map some ++
                (List.replicate (rest.length - (extractRedir rest inR outR inF outF).toks.length)
                  none ++ P)
              size := (pre ++ t :: (extractRedir rest inR outR inF outF).toks).length
              inputRedir := (extractRedir rest inR outR inF outF).inputRedir
              outputRedir := (extractRedir rest inR outR inF outF).outputRedir
              inputFile := (extractRedir rest inR outR inF outF).inputFile
              outputFile := (extractRedir rest inR outR inF outF).outputFile } := by
        intro inR outR inF outF
        have := ih (pre ++ [t]) rest P inR outR inF outF (by simpa using h)
        simpa using this
      have remove : ∀ (file : CStr) (rest' : List CStr) (inR outR : Bool) (inF outF : CStr),
          rest = file :: rest' →
          checkRedirectionLoop fuel (pre.length + 1)
            { arr := removePair ((pre ++ t :: rest).map some ++ P) pre.length
                (pre ++ t :: rest).length
              size := (pre ++ t :: rest).length - 2
              inputRedir := inR, outputRedir := outR, inputFile := inF, outputFile := outF }
          = .ok
              (match rest' with
              | [] =>
                { arr := pre.map some ++ (none :: none :: P), size := pre.length,
                  inputRedir := inR, outputRedir := outR, inputFile := inF, outputFile := outF }
              | u :: rest'' =>
                { arr := (pre ++ u :: (extractRedir rest'' inR outR inF outF).toks).map some ++
                    (List.replicate
                      (rest''.length - (extractRedir rest'' inR outR inF outF).toks.length + 2)
                      none ++ P)
                  size := (pre ++ u :: (extractRedir rest'' inR outR inF outF).toks).length
                  inputRedir := (extractRedir rest'' inR outR inF outF).inputRedir
                  outputRedir := (extractRedir rest'' inR outR inF outF).outputRedir
                  inputFile := (extractRedir rest'' inR outR inF outF).inputFile
                  outputFile := (extractRedir rest'' inR outR inF outF).outputFile }) := by
        intro file rest' inR outR inF outF hrest
        subst hrest
        rw [removePair_slots]
        have hsz : (pre ++ t :: file :: rest').length - 2 = (pre ++ rest').length := by
          simp; omega
        rw [hsz]
        cases rest' with
        | nil =>
          rw [checkRedirectionLoop_done _ _ _ (by simp)]
          simp
        | cons u rest'' =>
          have := ih (pre ++ [u]) rest'' (none :: none :: P) inR outR inF outF
            (by simp at h; omega)
          simp only [List.append_assoc, List.singleton_append, List.length_append,
            List.length_cons, List.length_nil] at this
          simp only [List.length_append, List.length_cons, Nat.add_zero] at this ⊢
          rw [this]
          simp [List.replicate_add]
      simp only [e1, e2, strncmp_single]
      by_cases c1 : (!inR && decide (t = ['<'])) = true
      · rw [if_pos c1]
        rcases rest with _ | ⟨file, rest'⟩
        · rw [if_neg (by simp), checkRedirectionLoop_done _ _ _ (by simp)]
          simp [extractRedir, e1, c1]
        · have hlt2 : pre.length + 1 < (pre ++ t :: file :: rest').length := by simp
          have hg : ((pre ++ t :: file :: rest').map some ++ P).getD (pre.length + 1) none
              = some file := by
            have := getD_slot (pre ++ [t]) rest' file P
            simpa using this
          rw [if_pos hlt2, hg]
          simp only
          rw [remove file rest' _ _ _ _ rfl]
          rcases rest' with _ | ⟨u, rest''⟩
          · simp [extractRedir, e1, c1]
          · have hle := extractRedir_length_le rest'' true outR (file.take FILENAME_MAX) outF
            simp [extractRedir, e1, c1]
            omega
      · rw [if_neg c1]
        by_cases c2 : (!outR && decide (t = ['>'])) = true
        · rw [if_pos c2]
          rcases rest with _ | ⟨file, rest'⟩
          · rw [if_neg (by simp), checkRedirectionLoop_done _ _ _ (by simp)]
            simp [extractRedir, e1, e2, c1, c2]
          · have hlt2 : pre.length + 1 < (pre ++ t :: file :: rest').length := by simp
            have hg : ((pre ++ t :: file :: rest').map some ++ P).getD (pre.length + 1) none
                = some file := by
              have := getD_slot (pre ++ [t]) rest' file P
              simpa using this
            rw [if_pos hlt2, hg]
            simp only
            rw [remove file rest' _ _ _ _ rfl]
            rcases rest' with _ | ⟨u, rest''⟩
            · simp [extractRedir, e1, e2, c1, c2]
            · have hle := extractRedir_length_le rest'' inR true inF (file.take FILENAME_MAX)
              simp [extractRedir, e1, e2, c1, c2]
              omega
        · rw [if_neg c2, keep]
          have hle := extractRedir_length_le rest inR outR inF outF
          rw [extractRedir_other t rest inR outR inF outF c1 c2]
          simp

theorem checkRedirection_tokenVector (toks : List CStr) (extra : Nat) :
    checkRedirection (tokenVector toks extra) = .ok
      { ret := (extractRedir toks false false [] []).inputRedir ||
          (extractRedir toks false false [] []).outputRedir
        arr := (extractRedir toks false false [] []).toks.map some ++
          (List.replicate (toks.length - (extractRedir toks false false [] []).toks.length) none
            ++ List.replicate extra none)
        size := (extractRedir toks false false [] []).toks.length
        openedInput := if (extractRedir toks false false [] []).inputRedir
          then some (extractRedir toks false false [] []).inputFile else none
        openedOutput := if (extractRedir toks false false [] []).outputRedir
          then some (extractRedir toks false false [] []).outputFile else none } := by
  cases toks with
  | nil => simp [checkRedirection, tokenVector, extractRedir]
  | cons t toks =>
    have h := checkRedirectionLoop_refines (t :: toks).length [] (t :: toks)
      (List.replicate extra none) false false [] [] le_rfl
    simp only [List.nil_append, List.length_nil] at h
    simp only [checkRedirection, tokenVector, List.length_cons, Nat.succ_ne_zero, if_false]
    simp only [List.length_cons] at h
    rw [h]

theorem extractRedir_onlyLast (toks : List CStr) (h : OnlyLastOp toks) (inR outR : Bool)
    (inF outF : CStr) :
    extractRedir toks inR outR inF outF = ⟨toks, inR, outR, inF, outF⟩ := by
  induction toks with
  | nil => simp [extractRedir]
  | cons t rest ih =>
    obtain ⟨h1, h2⟩ := h
    by_cases c1 : (!inR && decide (t = "<".toList)) = true
    · have hr : rest = [] := h1 (Or.inl (of_decide_eq_true ((Bool.and_eq_true _ _).mp c1).2))
      subst hr
      rw [extractRedir_in _ _ _ _ _ _ c1]
    · by_cases c2 : (!outR && decide (t = ">".toList)) = true
      · have hr : rest = [] := h1 (Or.inr (of_decide_eq_true ((Bool.and_eq_true _ _).mp c2).2))
        subst hr
        rw [extractRedir_out _ _ _ _ _ _ c1 c2]
      · rw [extractRedir_other _ _ _ _ _ _ c1 c2, ih h2]

theorem onlyLastOp_of_noOp (toks : List CStr) (h : ∀ t ∈ toks, ¬ isRedirOp t) :
    OnlyLastOp toks := by
  induction toks with
  | nil => trivial
  | cons t rest ih =>
    exact ⟨fun ht => absurd ht (h t (List.mem_cons_self _ _)),
      ih (fun u hu => h u (List.mem_cons_of_mem _ hu))⟩

theorem onlyLastOp_append_last (toks : List CStr) (op : CStr)
    (h : ∀ t ∈ toks, ¬ isRedirOp t) : OnlyLastOp (toks ++ [op]) := by
  induction toks with
  | nil => exact ⟨fun _ => rfl, trivial⟩
  | cons t rest ih =>
    exact ⟨fun ht => absurd ht (h t (List.mem_cons_self _ _)),
      ih (fun u hu => h u (List.mem_cons_of_mem _ hu))⟩

/-- Claim C5. When the only redirection operator of the token sequence is its
last token, `checkRedirection` returns `false`, opens no file and leaves the
array and its own `tokens.size` as they were. -/
theorem checkRedirection_trailing_operator (toks : List CStr) (op : CStr) (extra : Nat)
    (hop : op = "<".toList ∨ op = ">".toList)
    (hno : ∀ t ∈ toks, t ≠ "<".toList ∧ t ≠ ">".toList) :
    checkRedirection (tokenVector (toks ++ [op]) extra) = .ok
      { ret := false
        arr := (tokenVector (toks ++ [op]) extra).arr
        size := (tokenVector (toks ++ [op]) extra).size
        openedInput := none
        openedOutput := none } := by
  have hno' : ∀ t ∈ toks, ¬ isRedirOp t := fun t ht hc =>
    hc.elim (hno t ht).1 (hno t ht).2
  have _ := hop
  rw [checkRedirection_tokenVector,
    extractRedir_onlyLast _ (onlyLastOp_append_last toks op hno')]
  simp [tokenVector]

theorem checkRedirection_trailing_operator_witness :
    checkRedirection (tokenVector (["cat".toList, "file".toList] ++ [">".toList]) 5) = .ok
      { ret := false
        arr := (tokenVector (["cat".toList, "file".toList] ++ [">".toList]) 5).arr
        size := (tokenVector (["cat".toList, "file".toList] ++ [">".toList]) 5).size
        openedInput := none
        openedOutput := none } :=
  checkRedirection_trailing_operator ["cat".toList, "file".toList] ">".toList 5
    (Or.inr rfl) (by decide)

/-! ## Token sequences without reserved tokens -/

theorem buildPipeline_plain (toks : List CStr) (extra : Nat)
    (hno : ∀ t ∈ toks, t ≠ "|".toList ∧ t ≠ "<".toList ∧ t ≠ ">".toList) :
    ∃ c, buildPipeline (tokenVector toks extra) = .ok
        { numCmds := 1, redir := false, tokens := tokenVector toks extra, commands := [c] } ∧
      c.elems = toks.map (fun t => some (t.take (strnlen t CMD_SIZE))) := by
  have hcount : toks.count "|".toList = 0 :=
    List.count_eq_zero.mpr (fun hm => (hno _ hm).1 rfl)
  have hops : ∀ t ∈ toks, ¬ isRedirOp t := fun t ht hc =>
    hc.elim (hno t ht).2.1 (hno t ht).2.2
  obtain ⟨c, h1, -, h3⟩ := copyLoop_spec toks (vectorInit 0) (vectorInit_WF 0)
  refine ⟨c, ?_, by simpa [vectorInit_elems] using h3⟩
  have hsame : ({ tokenVector toks extra with
      arr := toks.map some ++ (List.replicate (toks.length - toks.length) none ++
        List.replicate extra none) } : Vector) = tokenVector toks extra := by
    simp [tokenVector]
  simp only [buildPipeline, countPipes_tokenVector, hcount, checkRedirection_tokenVector,
    extractRedir_onlyLast _ (onlyLastOp_of_noOp toks hops), hsame]
  simp [splitStages, tokenVector_elems, h1]

/-- Claim C2, as amended. For a token sequence without `"|"`, `"<"` and `">"`
whose tokens are at most `CMD_SIZE` characters long, lines 86-115 of `main` give
one stage, holding exactly the input tokens in their order; no redirection is
reported and the token vector is left as it was. -/
theorem single_stage_keeps_tokens (toks : List CStr) (extra : Nat)
    (hno : ∀ t ∈ toks, t ≠ "|".toList ∧ t ≠ "<".toList ∧ t ≠ ">".toList)
    (hlen : ∀ t ∈ toks, t.length ≤ CMD_SIZE) :
    ∃ p, buildPipeline (tokenVector toks extra) = .ok p ∧
      p.numCmds = 1 ∧ p.redir = false ∧ p.tokens = tokenVector toks extra ∧
      stageTokens p.commands = [toks.map some] := by
  obtain ⟨c, h1, h2⟩ := buildPipeline_plain toks extra hno
  refine ⟨_, h1, rfl, rfl, rfl, ?_⟩
  simp only [stageTokens, List.map_cons, List.map_nil, h2, List.cons.injEq, and_true]
  apply List.map_congr_left
  intro t ht
  rw [List.take_of_length_le]
  simp [strnlen, hlen t ht]

theorem single_stage_keeps_tokens_witness :
    ∃ p, buildPipeline (tokenVector ["ls".toList, "-l".toList] 6) = .ok p ∧
      p.numCmds = 1 ∧ p.redir = false ∧ p.tokens = tokenVector ["ls".toList, "-l".toList] 6 ∧
      stageTokens p.commands = [["ls".toList, "-l".toList].map some] :=
  single_stage_keeps_tokens ["ls".toList, "-l".toList] 6 (by decide) (by decide)

/-- Claim C2 as stated fails. A token of 1025 characters is none of `"|"`,
`"<"`, `">"`, yet the single stage built from it holds only its first 1024
characters, `strnlen(tokens.arr[i], CMD_SIZE)` bounding the copy. -/
theorem single_stage_truncates_long_token :
    (∀ t ∈ [List.replicate 1025 'a'], t ≠ "|".toList ∧ t ≠ "<".toList ∧ t ≠ ">".toList) ∧
    ∃ p, buildPipeline (tokenVector [List.replicate 1025 'a'] 7) = .ok p ∧
      p.numCmds = 1 ∧
      stageTokens p.commands = [[some (List.replicate 1024 'a')]] ∧
      stageTokens p.commands ≠ [[List.replicate 1025 'a'].map some] := by
  have hno : ∀ t ∈ [List.replicate 1025 'a'],
      t ≠ "|".toList ∧ t ≠ "<".toList ∧ t ≠ ">".toList := by
    intro t ht
    rw [List.mem_singleton] at ht
    subst ht
    refine ⟨?_, ?_, ?_⟩ <;> intro h <;> have := congrArg List.length h <;>
      rw [List.length_replicate] at this <;> exact absurd this (by decide)
  obtain ⟨c, h1, h2⟩ := buildPipeline_plain [List.replicate 1025 'a'] 7 hno
  have hn : strnlen (List.replicate 1025 'a') CMD_SIZE = 1024 := by
    rw [strnlen, List.length_replicate]; decide
  have h3 : stageTokens [c] = [[some (List.replicate 1024 'a')]] := by
    rw [stageTokens, List.map_cons, List.map_nil, h2, List.map_cons, List.map_nil, hn,
      List.take_replicate]
    rfl
  refine ⟨hno, _, h1, rfl, h3, ?_⟩
  show stageTokens [c] ≠ _
  rw [h3]
  intro h
  rw [List.map_cons, List.map_nil] at h
  have h4 := Option.some.inj (List.head_eq_of_cons_eq (List.head_eq_of_cons_eq h))
  have h5 := congrArg List.length h4
  rw [List.length_replicate, List.length_replicate] at h5
  exact absurd h5 (by decide)

/-! ## Redirection extraction as seen from `main`, and run twice -/

/-- Claim C3, the code at `cat < in`. `checkRedirection` shortens only its own
copy of `tokens.size` (to 1) and leaves `NULL` in the last two slots of the
shared array; `main` still has `tokens.size = 3`, so that the stage loop reads
through a `NULL` slot. -/
theorem redirection_leaves_null_slots_in_main :
    checkRedirection (tokenVector ["cat".toList, "<".toList, "in".toList] 5) = .ok
      { ret := true
        arr := [some "cat".toList, none, none, none, none, none, none, none]
        size := 1
        openedInput := some "in".toList
        openedOutput := none } ∧
    (tokenVector ["cat".toList, "<".toList, "in".toList] 5).size = 3 ∧
    splitStages { tokenVector ["cat".toList, "<".toList, "in".toList] 5 with
        arr := [some "cat".toList, none, none, none, none, none, none, none] } 1
      = .error .nullDeref ∧
    buildPipeline (tokenVector ["cat".toList, "<".toList, "in".toList] 5)
      = .error .nullDeref := by
  decide

/-- Claim C1, the code at `a | b > o`. The sequence has one token equal to
`"|"` and `countPipes` returns 1.  `checkRedirection`, which `main` calls
between `countPipes` and the stage loop, takes `> o` out of the shared array and
leaves `NULL` in slots 3 and 4, while `tokens.size` of `main` is still 5: the
stage loop reads through the `NULL` at index 3, and no stages are yielded. -/
theorem pipeline_with_redirection_yields_no_stages :
    ["a".toList, "|".toList, "b".toList, ">".toList, "o".toList].count "|".toList = 1 ∧
    countPipes (tokenVector ["a".toList, "|".toList, "b".toList, ">".toList, "o".toList] 3)
      = .ok 1 ∧
    (checkRedirection
        (tokenVector ["a".toList, "|".toList, "b".toList, ">".toList, "o".toList] 3)).map
        (fun r => (r.arr, r.size))
      = .ok ([some "a".toList, some "|".toList, some "b".toList, none, none, none, none, none],
          3) ∧
    (tokenVector ["a".toList, "|".toList, "b".toList, ">".toList, "o".toList] 3).size = 5 ∧
    buildPipeline (tokenVector ["a".toList, "|".toList, "b".toList, ">".toList, "o".toList] 3)
      = .error .nullDeref := by
  decide

/-- Claim C4, the code at `sort < in > out`. After the pair `< in` is removed at
index 1 the loop goes on at index 2, past the `">"` that moved to index 1: only
the input file is recorded and `> out` stays among the tokens. -/
theorem redirection_skips_operator_after_pair :
    checkRedirection
        (tokenVector ["sort".toList, "<".toList, "in".toList, ">".toList, "out".toList] 3)
      = .ok
        { ret := true
          arr := [some "sort".toList, some ">".toList, some "out".toList, none, none,
            none, none, none]
          size := 3
          openedInput := some "in".toList
          openedOutput := none } := by
  decide

/-- Claim C6 as stated fails. On `a < b c < d` the first run removes `< b` and
leaves the second `"<"`, which the flag `inputRedir` guards; a second run on
the tokens left removes `< d` and reports a redirection. -/
theorem checkRedirection_second_run_extracts :
    checkRedirection
        (tokenVector ["a".toList, "<".toList, "b".toList, "c".toList, "<".toList, "d".toList] 2)
      = .ok
        { ret := true
          arr := [some "a".toList, some "c".toList, some "<".toList, some "d".toList, none, none,
            none, none]
          size := 4
          openedInput := some "b".toList
          openedOutput := none } ∧
    checkRedirection (RedirResult.tokensLeft
        { ret := true
          arr := [some "a".toList, some "c".toList, some "<".toList, some "d".toList, none, none,
            none, none]
          size := 4
          openedInput := some "b".toList
          openedOutput := none })
      = .ok
        { ret := true
          arr := [some "a".toList, some "c".toList, none, none, none, none, none, none]
          size := 2
          openedInput := some "d".toList
          openedOutput := none } := by
  decide

theorem noOpAfterFile_tail (t : CStr) (rest : List CStr) (h : NoOpAfterFile (t :: rest)) :
    NoOpAfterFile rest := by
  intro i a b ha hb
  exact h (i + 1) a b (by simpa using ha) (by simpa using hb)

theorem extractRedir_leaves_onlyLastOp (n : Nat) :
    ∀ (toks : List CStr) (inR outR : Bool) (inF outF : CStr), toks.length ≤ n →
      toks.count "<".toList ≤ (if inR then 0 else 1) →
      toks.count ">".toList ≤ (if outR then 0 else 1) →
      NoOpAfterFile toks →
      OnlyLastOp (extractRedir toks inR outR inF outF).toks := by
  induction n with
  | zero =>
    intro toks inR outR inF outF h _ _ _
    have : toks = [] := List.length_eq_zero.mp (by omega)
    subst this
    simp [extractRedir, OnlyLastOp]
  | succ n ih =>
    intro toks inR outR inF outF h hin hout hgap
    match toks, h, hin, hout, hgap with
    | [], _, _, _, _ => simp [extractRedir, OnlyLastOp]
    | t :: rest, h, hin, hout, hgap =>
      simp only [List.length_cons] at h
      by_cases c1 : (!inR && decide (t = "<".toList)) = true
      · rw [extractRedir_in _ _ _ _ _ _ c1]
        have ht : t = "<".toList := of_decide_eq_true ((Bool.and_eq_true _ _).mp c1).2
        match rest, h, hin, hout, hgap with
        | [], _, _, _, _ => simp [OnlyLastOp]
        | [file], _, _, _, _ => simp [OnlyLastOp]
        | file :: u :: rest', h, hin, hout, hgap =>
          simp only [List.length_cons] at h
          have hu : ¬ isRedirOp u := hgap 0 t u (by simp) (by simp) (Or.inl ht)
          refine ⟨fun hc => absurd hc hu, ?_⟩
          apply ih rest' true outR _ _ (by omega)
          · have hle : rest'.count "<".toList + 1 ≤ (t :: file :: u :: rest').count "<".toList := by
              rw [ht]
              simp only [List.count_cons_self]
              have := List.count_le_count_cons "<".toList file (u :: rest')
              have := List.count_le_count_cons "<".toList u rest'
              omega
            have : (t :: file :: u :: rest').count "<".toList ≤ 1 := by
              split at hin <;> omega
            simp only [if_true]
            omega
          · have := List.count_le_count_cons ">".toList t (file :: u :: rest')
            have := List.count_le_count_cons ">".toList file (u :: rest')
            have := List.count_le_count_cons ">".toList u rest'
            omega
          · exact noOpAfterFile_tail _ _ (noOpAfterFile_tail _ _ (noOpAfterFile_tail _ _ hgap))
      · by_cases c2 : (!outR && decide (t = ">".toList)) = true
        · rw [extractRedir_out _ _ _ _ _ _ c1 c2]
          have ht : t = ">".toList := of_decide_eq_true ((Bool.and_eq_true _ _).mp c2).2
          match rest, h, hin, hout, hgap with
          | [], _, _, _, _ => simp [OnlyLastOp]
          | [file], _, _, _, _ => simp [OnlyLastOp]
          | file :: u :: rest', h, hin, hout, hgap =>
            simp only [List.length_cons] at h
            have hu : ¬ isRedirOp u := hgap 0 t u (by simp) (by simp) (Or.inr ht)
            refine ⟨fun hc => absurd hc hu, ?_⟩
            apply ih rest' inR true _ _ (by omega)
            · have := List.count_le_count_cons "<".toList t (file :: u :: rest')
              have := List.count_le_count_cons "<".toList file (u :: rest')
              have := List.count_le_count_cons "<".toList u rest'
              omega
            · have hle : rest'.count ">".toList + 1
                  ≤ (t :: file :: u :: rest').count ">".toList := by
                rw [ht]
                simp only [List.count_cons_self]
                have := List.count_le_count_cons ">".toList file (u :: rest')
                have := List.count_le_count_cons ">".toList u rest'
                omega
              have : (t :: file :: u :: rest').count ">".toList ≤ 1 := by
                split at hout <;> omega
              simp only [if_true]
              omega
            · exact noOpAfterFile_tail _ _ (noOpAfterFile_tail _ _ (noOpAfterFile_tail _ _ hgap))
        · rw [extractRedir_other _ _ _ _ _ _ c1 c2]
          have hnot : ¬ isRedirOp t := by
            rintro (ht | ht)
            · subst ht
              cases inR
              · simp at c1
              · simp at hin
            · subst ht
              cases outR
              · simp at c2
              · simp at hout
          refine ⟨fun hc => absurd hc hnot, ?_⟩
          apply ih rest inR outR _ _ (by omega)
          · have := List.count_le_count_cons "<".toList t rest
            omega
          · have := List.count_le_count_cons ">".toList t rest
            omega
          · exact noOpAfterFile_tail _ _ hgap

/-- Claim C6, as amended. For a token sequence with at most one `"<"` and at
most one `">"`, neither of them directly after the filename token of the
other, `checkRedirection` run on the tokens its first run left returns `false`,
opens no file and leaves the array and the size as the first run left them. -/
theorem checkRedirection_idempotent (toks : List CStr) (extra : Nat)
    (hin : toks.count "<".toList ≤ 1) (hout : toks.count ">".toList ≤ 1)
    (hgap : ∀ (i : Nat) (a b : CStr), toks[i]? = some a → toks[i + 2]? = some b →
      (a = "<".toList ∨ a = ">".toList) → ¬ (b = "<".toList ∨ b = ">".toList)) :
    ∃ r, checkRedirection (tokenVector toks extra) = .ok r ∧
      checkRedirection r.tokensLeft = .ok
        { ret := false, arr := r.arr, size := r.size,
          openedInput := none, openedOutput := none } := by
  refine ⟨_, checkRedirection_tokenVector toks extra, ?_⟩
  have hlast := extractRedir_leaves_onlyLastOp toks.length toks false false [] [] le_rfl
    (by simpa using hin) (by simpa using hout) hgap
  generalize extractRedir toks false false [] [] = e at hlast
  have hleft : RedirResult.tokensLeft
      { ret := e.inputRedir || e.outputRedir
        arr := e.toks.map some ++
          (List.replicate (toks.length - e.toks.length) none ++ List.replicate extra none)
        size := e.toks.length
        openedInput := if e.inputRedir then some e.inputFile else none
        openedOutput := if e.outputRedir then some e.outputFile else none }
      = tokenVector e.toks (toks.length - e.toks.length + extra) := by
    simp [RedirResult.tokensLeft, tokenVector]
  rw [hleft, checkRedirection_tokenVector, extractRedir_onlyLast _ hlast]
  simp

theorem checkRedirection_idempotent_witness :
    ∃ r, checkRedirection
        (tokenVector ["sort".toList, "<".toList, "in".toList, "-r".toList, ">".toList,
          "out".toList] 2) = .ok r ∧
      checkRedirection r.tokensLeft = .ok
        { ret := false, arr := r.arr, size := r.size,
          openedInput := none, openedOutput := none } :=
  checkRedirection_idempotent
    ["sort".toList, "<".toList, "in".toList, "-r".toList, ">".toList, "out".toList] 2
    (by decide) (by decide)
    (by
      intro i a b ha hb hop
      match i, ha, hb with
      | 0, ha, hb => simp at ha hb; subst ha hb; decide
      | 1, ha, hb => simp at ha hb; subst ha hb; decide
      | 2, ha, hb => simp at ha hb; subst ha hb; revert hop; decide
      | 3, ha, hb => simp at ha hb; subst ha hb; decide
      | 4, ha, hb => simp at hb
      | 5, ha, hb => simp at hb
      | n + 6, ha, hb => simp at ha)

/-! ## History -/

theorem elems_size (h : Vector) (hwf : h.WF) (entries : List CStr)
    (he : h.elems = entries.map some) : h.size = entries.length := by
  have := congrArg List.length he
  simp only [Vector.elems, List.length_take, List.length_map] at this
  obtain ⟨h1, h2, -⟩ := hwf
  omega

theorem last_slot (h : Vector) (hwf : h.WF) (init : List CStr) (x : CStr)
    (he : h.elems = (init ++ [x]).map some) :
    h.arr.getD (h.size - 1) none = some x := by
  have hsz := elems_size h hwf _ he
  simp only [List.length_append, List.length_singleton] at hsz
  have h1 : (h.arr.take h.size)[h.size - 1]? = h.arr[h.size - 1]? :=
    List.getElem?_take_of_lt (by omega)
  have h2 : (h.arr.take h.size)[h.size - 1]? = some (some x) := by
    have : h.arr.take h.size = (init ++ [x]).map some := he
    rw [this, hsz]
    simp
  rw [List.getD_eq_getElem?_getD, ← h1, h2]
  rfl

theorem strncmp_take_self (l : CStr) (n : Nat) : strncmp l (l.take n) n = .eq := by
  rw [strncmp_eq_iff]
  simp

theorem recordHistory_step (h : Vector) (entries : List CStr) (hok : HistoryOK h entries)
    (l : CStr) :
    ∃ h' entries', recordHistory h l = .ok h' ∧ HistoryOK h' entries' ∧
      recordHistory h' l = .ok h' := by
  obtain ⟨hwf, he, hne, hch⟩ := hok
  by_cases hl : strnlen l CMD_SIZE = 0
  · exact ⟨h, entries, by simp [recordHistory, hl], ⟨hwf, he, hne, hch⟩,
      by simp [recordHistory, hl]⟩
  · have hnonempty : l.take (strnlen l CMD_SIZE) ≠ [] := by
      intro hc
      have := congrArg List.length hc
      simp only [List.length_take, strnlen, List.length_nil, CMD_SIZE] at this hl
      omega
    have hins_wf := vectorInsert_WF h hwf l (strnlen l CMD_SIZE)
    have hins_el := vectorInsert_elems h hwf l (strnlen l CMD_SIZE)
    have hins_el' : (vectorInsert h (some l) (strnlen l CMD_SIZE)).elems
        = (entries ++ [l.take (strnlen l CMD_SIZE)]).map some := by
      rw [hins_el, he]; simp
    have hsz' : (vectorInsert h (some l) (strnlen l CMD_SIZE)).size ≠ 0 := by
      have := elems_size _ hins_wf _ hins_el'
      simp at this
      omega
    have hagain : recordHistory (vectorInsert h (some l) (strnlen l CMD_SIZE)) l
        = .ok (vectorInsert h (some l) (strnlen l CMD_SIZE)) := by
      simp only [recordHistory, hl, hsz', ne_eq, not_false_eq_true, if_true, if_false,
        last_slot _ hins_wf _ _ hins_el', strncmp_take_self, not_true_eq_false]
    rcases List.eq_nil_or_concat entries with hnil | ⟨init, x, hx⟩
    · subst hnil
      have hs0 : h.size = 0 := by simpa using elems_size h hwf _ he
      refine ⟨_, [l.take (strnlen l CMD_SIZE)], by simp [recordHistory, hl, hs0],
        ⟨hins_wf, by simpa using hins_el', ?_, List.chain'_singleton _⟩, hagain⟩
      simpa using hnonempty.symm
    · rw [List.concat_eq_append] at hx
      subst hx
      have hs0 : h.size ≠ 0 := by
        have := elems_size h hwf _ he
        simp at this
        omega
      have hlast := last_slot h hwf init x he
      by_cases hcmp : strncmp l x (strnlen l CMD_SIZE) = .eq
      · have hsame : recordHistory h l = .ok h := by
          unfold recordHistory
          rw [if_pos hl, if_neg hs0, hlast]
          simp [hcmp]
        exact ⟨h, init ++ [x], hsame, ⟨hwf, he, hne, hch⟩, hsame⟩
      · have hadd : recordHistory h l = .ok (vectorInsert h (some l) (strnlen l CMD_SIZE)) := by
          unfold recordHistory
          rw [if_pos hl, if_neg hs0, hlast]
          simp [hcmp]
        refine ⟨_, (init ++ [x]) ++ [l.take (strnlen l CMD_SIZE)], hadd,
          ⟨hins_wf, hins_el', ?_, ?_⟩, hagain⟩
        · intro hm
          rcases List.mem_append.mp hm with hm | hm
          · exact hne hm
          · exact hnonempty (List.mem_singleton.mp hm).symm
        · apply List.Chain'.append hch (List.chain'_singleton _)
          intro a ha b hb
          simp at ha hb
          subst ha hb
          intro hab
          apply hcmp
          rw [hab]
          exact strncmp_take_self l _

theorem runHistory_ok (lines : List CStr) :
    ∀ (h : Vector) (entries : List CStr), HistoryOK h entries →
      ∃ h' entries', runHistory h lines = .ok h' ∧ HistoryOK h' entries' := by
  induction lines with
  | nil => exact fun h entries hok => ⟨h, entries, rfl, hok⟩
  | cons l lines ih =>
    intro h entries hok
    obtain ⟨h1, e1, hr, hok1, -⟩ := recordHistory_step h entries hok l
    obtain ⟨h2, e2, hr2, hok2⟩ := ih h1 e1 hok1
    exact ⟨h2, e2, by simp [runHistory, hr, hr2], hok2⟩

theorem runHistory_append (l1 l2 : List CStr) (h : Vector) :
    runHistory h (l1 ++ l2) =
      match runHistory h l1 with
      | .error e => .error e
      | .ok h' => runHistory h' l2 := by
  induction l1 generalizing h with
  | nil => simp [runHistory]
  | cons l l1 ih =>
    simp only [List.cons_append, runHistory]
    cases recordHistory h l with
    | error e => rfl
    | ok h1 => exact ih h1

/-- The invariants of History. Whatever lines are submitted, the History of the
session holds no empty line and no two consecutive equal entries; and
submitting a line a second time right after submitting it leaves History as the
first submission left it, whether or not that one appended the line. -/
theorem history_no_empty_no_repeat (lines : List CStr) (l : CStr) :
    (∃ (h : Vector) (entries : List CStr),
      sessionHistory lines = .ok h ∧ h.elems = entries.map some ∧
      [] ∉ entries ∧ entries.Chain' (· ≠ ·)) ∧
    sessionHistory (lines ++ [l, l]) = sessionHistory (lines ++ [l]) := by
  have hinit : HistoryOK (vectorInit 128) [] :=
    ⟨vectorInit_WF 128, by simp [vectorInit_elems], by simp, List.chain'_nil⟩
  obtain ⟨h, entries, hr, hok⟩ := runHistory_ok lines (vectorInit 128) [] hinit
  refine ⟨⟨h, entries, hr, hok.2.1, hok.2.2.1, hok.2.2.2⟩, ?_⟩
  obtain ⟨h1, e1, hs, -, hs2⟩ := recordHistory_step h entries hok l
  unfold sessionHistory
  rw [runHistory_append, runHistory_append, hr]
  simp [runHistory, hs, hs2]

/-- Claim C7, the code at History `["ls -la"]`, line `ls`. The submitted line is
not empty and differs from the most recent entry, yet it is not appended:
`strncmp` is given `strnlen(input)` as its length, so that a line which is a
prefix of the most recent entry compares equal to it. -/
theorem history_drops_prefix_of_last_entry :
    (vectorInsert (vectorInit 128) (some "ls -la".toList) 6).elems = [some "ls -la".toList] ∧
    "ls".toList ≠ [] ∧ "ls".toList ≠ "ls -la".toList ∧
    recordHistory (vectorInsert (vectorInit 128) (some "ls -la".toList) 6) "ls".toList
      = .ok (vectorInsert (vectorInit 128) (some "ls -la".toList) 6) ∧
    sessionHistory ["ls -la".toList, "ls".toList]
      = .ok (vectorInsert (vectorInit 128) (some "ls -la".toList) 6) := by
  decide

/-- Claim C8, the code at the lines `ls -la`, `ls`, `ls`. The non-empty line
`ls` is submitted twice in a row and is appended not once but never: each time
`strncmp` compares only its two characters with the most recent entry `ls -la`
and finds them equal.  After `pwd` the same two submissions append it once. -/
theorem history_repeated_line_never_stored :
    "ls".toList ≠ [] ∧ "ls".toList ≠ "ls -la".toList ∧
    (sessionHistory ["ls -la".toList]).map Vector.elems = .ok [some "ls -la".toList] ∧
    (sessionHistory ["ls -la".toList, "ls".toList, "ls".toList]).map Vector.elems
      = .ok [some "ls -la".toList] ∧
    (sessionHistory ["pwd".toList, "ls".toList, "ls".toList]).map Vector.elems
      = .ok [some "pwd".toList, some "ls".toList] := by
  decide

/-! ## `findLongestCommonPrefix` -/

theorem minLenLoop_spec (cands : List CStr) (m : Nat) :
    ∃ r, minLenLoop (cands.map some) m = .ok r ∧ r ≤ m ∧
      (∀ c ∈ cands, r ≤ strnlen c PATH_MAX) ∧
      (r = m ∨ ∃ c ∈ cands, r = strnlen c PATH_MAX) := by
  induction cands generalizing m with
  | nil => exact ⟨m, rfl, le_rfl, by simp, Or.inl rfl⟩
  | cons c cands ih =>
    obtain ⟨r, h1, h2, h3, h4⟩ :=
      ih (if strnlen c PATH_MAX < m then strnlen c PATH_MAX else m)
    refine ⟨r, by simpa [minLenLoop] using h1, ?_, ?_, ?_⟩
    · split at h2 <;> omega
    · intro d hd
      rcases List.mem_cons.mp hd with hd | hd
      · subst hd; split at h2 <;> omega
      · exact h3 d hd
    · rcases h4 with h4 | ⟨d, hd, h4⟩
      · split at h4
        · exact Or.inr ⟨c, List.mem_cons_self _ _, h4⟩
        · exact Or.inl h4
      · exact Or.inr ⟨d, List.mem_cons_of_mem _ hd, h4⟩

theorem differsAt_spec (c : Char) (i : Nat) (others : List CStr) :
    ∃ b, differsAt c i (others.map some) = .ok b ∧
      (b = true ↔ ∃ s ∈ others, charAt s i ≠ c) := by
  induction others with
  | nil => exact ⟨false, rfl, by simp⟩
  | cons s others ih =>
    obtain ⟨b, h1, h2⟩ := ih
    by_cases hs : charAt s i ≠ c
    · exact ⟨true, by simp [differsAt, hs], by simp; exact Or.inl hs⟩
    · refine ⟨b, by simp only [List.map_cons, differsAt, hs, if_false]; exact h1, ?_⟩
      rw [h2]
      constructor
      · rintro ⟨t, ht, hne⟩; exact ⟨t, List.mem_cons_of_mem _ ht, hne⟩
      · rintro ⟨t, ht, hne⟩
        rcases List.mem_cons.mp ht with ht | ht
        · subst ht; exact absurd hne hs
        · exact ⟨t, ht, hne⟩

theorem lcpLoop_spec (first : CStr) (others : List CStr) (min : Nat) (fuel : Nat) :
    ∀ i, i ≤ min → min ≤ fuel + i →
      (∀ k, k < i → ∀ s ∈ others, charAt s k = charAt first k) →
      ∃ r, lcpLoop first (others.map some) min fuel i = .ok r ∧ r ≤ min ∧
        (∀ k, k < r → ∀ s ∈ others, charAt s k = charAt first k) ∧
        (r = min ∨ ∃ s ∈ others, charAt s r ≠ charAt first r) := by
  induction fuel with
  | zero =>
    intro i hi hf hpre
    exact ⟨i, rfl, hi, hpre, Or.inl (by omega)⟩
  | succ fuel ih =>
    intro i hi hf hpre
    by_cases hlt : i < min
    · obtain ⟨b, h1, h2⟩ := differsAt_spec (charAt first i) i others
      cases b with
      | true =>
        exact ⟨i, by simp [lcpLoop, hlt, h1], hi, hpre, Or.inr (h2.mp rfl)⟩
      | false =>
        have hall : ∀ s ∈ others, charAt s i = charAt first i := by
          intro s hs
          by_contra hne
          have := h2.mpr ⟨s, hs, hne⟩
          simp at this
        obtain ⟨r, h3, h4, h5, h6⟩ := ih (i + 1) (by omega) (by omega) (by
          intro k hk s hs
          rcases Nat.lt_succ_iff_lt_or_eq.mp hk with hk | hk
          · exact hpre k hk s hs
          · subst hk; exact hall s hs)
        exact ⟨r, by simp [lcpLoop, hlt, h1, h3], h4, h5, h6⟩
    · exact ⟨i, by simp [lcpLoop, hlt], hi, hpre, Or.inl (by omega)⟩

theorem take_eq_of_charAt (a b : CStr) (n : Nat) (ha : n ≤ a.length) (hb : n ≤ b.length)
    (h : ∀ k, k < n → charAt a k = charAt b k) : a.take n = b.take n := by
  apply List.ext_getElem
  · simp [ha, hb]
  · intro k h1 h2
    simp only [List.length_take] at h1
    have hk : k < n := by omega
    have := h k hk
    simp only [charAt, List.getD_eq_getElem?_getD] at this
    rw [List.getElem?_eq_getElem (by omega), List.getElem?_eq_getElem (by omega)] at this
    simpa [List.getElem_take] using this

theorem charAt_eq_getD_left (p s : CStr) (k : Nat) (hp : p <+: s) (hk : k < p.length) :
    charAt s k = p.getD k NUL := by
  obtain ⟨t, rfl⟩ := hp
  simp [charAt, List.getElem?_append_left hk]

theorem bufferString_strncpy (first : CStr) (n size : Nat) (hnul : NUL ∉ first)
    (hn : n ≤ first.length) :
    bufferString (strncpy (List.replicate size NUL) first n) = first.take n := by
  unfold bufferString strncpy
  have h0 : n - first.length = 0 := by omega
  rw [h0, List.replicate_zero, List.append_nil, List.drop_replicate]
  rw [List.takeWhile_append_of_pos]
  · cases hsz : size - n with
    | zero => simp
    | succ m => simp [List.replicate_succ]
  · intro c hc
    have : c ∈ first := List.mem_of_mem_take hc
    simp only [ne_eq, decide_eq_true_eq]
    rintro rfl
    exact hnul this

theorem longestCommonPrefix_spec (cands : List CStr) (extra size : Nat)
    (h2 : 2 ≤ cands.length) (hnul : ∀ c ∈ cands, NUL ∉ c)
    (hlen : ∀ c ∈ cands, c.length ≤ PATH_MAX) (hsize : ∃ c ∈ cands, c.length < size) :
    ∃ buf, findLongestCommonPrefix (tokenVector cands extra) (List.replicate size NUL) size
        = .ok buf ∧
      (∀ c ∈ cands, bufferString buf <+: c) ∧
      (∀ p : CStr, (∀ c ∈ cands, p <+: c) → p.length ≤ (bufferString buf).length) := by
  match cands, h2, hnul, hlen, hsize with
  | first :: others, _, hnul, hlen, hsize =>
    have hstrn : ∀ c ∈ first :: others, strnlen c PATH_MAX = c.length := by
      intro c hc
      simp [strnlen, hlen c hc]
    obtain ⟨min, hm1, hm2, hm3, hm4⟩ := minLenLoop_spec (first :: others) INT32_MAX
    have hfirst : min ≤ first.length := by
      have := hm3 first (List.mem_cons_self _ _)
      rwa [hstrn first (List.mem_cons_self _ _)] at this
    have hmin_le : ∀ c ∈ first :: others, min ≤ c.length := by
      intro c hc
      have := hm3 c hc
      rwa [hstrn c hc] at this
    have hmin_attained : ∃ c ∈ first :: others, min = c.length := by
      rcases hm4 with hm4 | ⟨c, hc, hm4⟩
      · have := hlen first (List.mem_cons_self _ _)
        simp only [INT32_MAX, PATH_MAX] at hm4 this
        omega
      · exact ⟨c, hc, by rw [hm4, hstrn c hc]⟩
    obtain ⟨i, hi1, hi2, hi3, hi4⟩ := lcpLoop_spec first others min min 0 (Nat.zero_le _)
      (by omega) (by intro k hk; omega)
    have hcount : (if size < i then size else i) = i := by
      obtain ⟨c, hc, hlt⟩ := hsize
      have := hmin_le c hc
      rw [if_neg (by omega)]
    have hrun : findLongestCommonPrefix (tokenVector (first :: others) extra)
        (List.replicate size NUL) size
        = .ok (strncpy (List.replicate size NUL) first i) := by
      have hel : (tokenVector (first :: others) extra).elems = (first :: others).map some :=
        tokenVector_elems _ _
      have hdrop : List.drop 1 ((first :: others).map some) = others.map some := by simp
      have hget : (tokenVector (first :: others) extra).arr.getD 0 none = some first := by
        simp [tokenVector]
      simp only [findLongestCommonPrefix, hel, hm1, hget, hdrop, hi1, hcount]
    have hstr : bufferString (strncpy (List.replicate size NUL) first i) = first.take i :=
      bufferString_strncpy first i size (hnul first (List.mem_cons_self _ _)) (by omega)
    refine ⟨_, hrun, ?_, ?_⟩
    · intro c hc
      rw [hstr]
      rcases List.mem_cons.mp hc with hc' | hc'
      · subst hc'; exact List.take_prefix _ _
      · have hci : i ≤ c.length := le_trans hi2 (hmin_le c hc)
        rw [← take_eq_of_charAt c first i hci (by omega) (fun k hk => hi3 k hk c hc')]
        exact List.take_prefix _ _
    · intro p hp
      rw [hstr, List.length_take]
      by_contra hcon
      have hpi : i < p.length := by omega
      rcases hi4 with hi4 | ⟨s, hs, hne⟩
      · obtain ⟨c, hc, hmc⟩ := hmin_attained
        have := (hp c hc).length_le
        omega
      · apply hne
        rw [charAt_eq_getD_left p s i (hp s (List.mem_cons_of_mem _ hs)) hpi,
          charAt_eq_getD_left p first i (hp first (List.mem_cons_self _ _)) hpi]

set_option maxRecDepth 100000 in
/-- Claim C9. For two or more candidate names (C strings of at most `PATH_MAX`
characters) and a zero-filled buffer of `size` bytes, `size` exceeding the
length of some candidate, `findLongestCommonPrefix` leaves in the buffer a
string that is a prefix of every candidate and at least as long as every
string that is a prefix of every candidate.  For `apple.txt` and `app.txt`,
with the `FILENAME_MAX` bytes of `tabComplete`, the string is `app`. -/
theorem findLongestCommonPrefix_longest :
    (∀ (cands : List CStr) (extra size : Nat),
      2 ≤ cands.length → (∀ c ∈ cands, NUL ∉ c) → (∀ c ∈ cands, c.length ≤ PATH_MAX) →
      (∃ c ∈ cands, c.length < size) →
      ∃ buf, findLongestCommonPrefix (tokenVector cands extra) (List.replicate size NUL) size
          = .ok buf ∧
        (∀ c ∈ cands, bufferString buf <+: c) ∧
        (∀ p : CStr, (∀ c ∈ cands, p <+: c) → p.length ≤ (bufferString buf).length)) ∧
    (findLongestCommonPrefix (tokenVector ["apple.txt".toList, "app.txt".toList] 6)
        (List.replicate FILENAME_MAX NUL) FILENAME_MAX).map bufferString
      = .ok "app".toList :=
  ⟨longestCommonPrefix_spec, by decide⟩

theorem findLongestCommonPrefix_longest_witness :
    ∃ buf, findLongestCommonPrefix (tokenVector ["apple.txt".toList, "app.txt".toList] 6)
        (List.replicate 16 NUL) 16 = .ok buf ∧
      (∀ c ∈ ["apple.txt".toList, "app.txt".toList], bufferString buf <+: c) ∧
      (∀ p : CStr, (∀ c ∈ ["apple.txt".toList, "app.txt".toList], p <+: c) →
        p.length ≤ (bufferString buf).length) :=
  findLongestCommonPrefix_longest.1 ["apple.txt".toList, "app.txt".toList] 6 16
    (by decide) (by decide) (by decide) ⟨"app.txt".toList, by decide, by decide⟩

/-! ## Character buffers -/

theorem strtokLoop_tokens (l : List Char) :
    ∀ (cur : CStr), ∀ t ∈ strtokLoop l cur,
      t.length ≤ cur.length + l.length ∧ ∀ c ∈ t, c ∈ cur ∨ c ∈ l := by
  induction l with
  | nil =>
    intro cur t ht
    by_cases hc : cur = []
    · simp [strtokLoop, hc] at ht
    · simp only [strtokLoop, hc, if_false, List.mem_singleton] at ht
      subst ht
      exact ⟨by simp, fun c hc => Or.inl hc⟩
  | cons a l ih =>
    intro cur t ht
    unfold strtokLoop at ht
    by_cases hd : a = ' ' ∨ a = '\n'
    · rw [if_pos hd] at ht
      by_cases hc : cur = []
      · rw [if_pos hc] at ht
        obtain ⟨h1, h2⟩ := ih [] t ht
        refine ⟨by simp at h1 ⊢; omega, fun c hc' => ?_⟩
        rcases h2 c hc' with h | h
        · simp at h
        · exact Or.inr (List.mem_cons_of_mem _ h)
      · rw [if_neg hc] at ht
        rcases List.mem_cons.mp ht with ht | ht
        · subst ht
          exact ⟨by simp, fun c hc' => Or.inl hc'⟩
        · obtain ⟨h1, h2⟩ := ih [] t ht
          refine ⟨by simp at h1 ⊢; omega, fun c hc' => ?_⟩
          rcases h2 c hc' with h | h
          · simp at h
          · exact Or.inr (List.mem_cons_of_mem _ h)
    · rw [if_neg hd] at ht
      obtain ⟨h1, h2⟩ := ih (cur ++ [a]) t ht
      refine ⟨by simp at h1 ⊢; omega, fun c hc' => ?_⟩
      rcases h2 c hc' with h | h
      · rcases List.mem_append.mp h with h | h
        · exact Or.inl h
        · rw [List.mem_singleton] at h
          subst h
          exact Or.inr (List.mem_cons_self _ _)
      · exact Or.inr (List.mem_cons_of_mem _ h)

theorem strtokTokens_tokens (input t : CStr) (ht : t ∈ strtokTokens input) :
    t.length ≤ input.length ∧ ∀ c ∈ t, c ∈ input := by
  obtain ⟨h1, h2⟩ := strtokLoop_tokens input [] t ht
  refine ⟨by simpa using h1, fun c hc => ?_⟩
  rcases h2 c hc with h | h
  · simp at h
  · exact h

theorem foldl_vectorInsert (toks : List CStr) (n : Nat) (hlen : ∀ t ∈ toks, t.length ≤ n) :
    ∀ (v : Vector), v.WF →
      (toks.foldl (fun tokens tok => vectorInsert tokens (some tok) (strnlen tok n)) v).WF ∧
      (toks.foldl (fun tokens tok => vectorInsert tokens (some tok) (strnlen tok n)) v).elems
        = v.elems ++ toks.map some := by
  induction toks with
  | nil => intro v hv; exact ⟨hv, by simp⟩
  | cons t toks ih =>
    intro v hv
    have hwf := vectorInsert_WF v hv t (strnlen t n)
    obtain ⟨h1, h2⟩ := ih (fun u hu => hlen u (List.mem_cons_of_mem _ hu)) _ hwf
    refine ⟨h1, ?_⟩
    simp only [List.foldl_cons]
    rw [h2, vectorInsert_elems v hv]
    have : t.take (strnlen t n) = t := by
      apply List.take_of_length_le
      have := hlen t (List.mem_cons_self _ _)
      simp [strnlen]
      omega
    simp [this]

theorem homeDirSubstitution_no_tilde (env : Env) (input : CStr) (size : Nat)
    (h : input.head? ≠ some '~') : homeDirSubstitution env input size = .ok input := by
  unfold homeDirSubstitution
  by_cases hs : size = 0
  · rw [if_pos hs]
  · rw [if_neg hs, if_neg]
    intro hc
    apply h
    cases input with
    | nil => simp [charAt, NUL] at hc
    | cons a rest => simp [charAt] at hc; simp [hc]

/-- Claim C11, the code at a directory whose entries are `sda`, a symbolic link
to a block device (`stat` reports mode 060660), and the regular file `sdb`,
with the stub `sd`. Both names are returned in order, but the link, which is not
a directory, comes back as `sda/`: the test is `st.st_mode & S_IFDIR`, and the
bit of `S_IFDIR` is also set in `S_IFBLK`. -/
theorem findAutofillStrings_marks_block_device_link :
    25008 &&& S_IFMT = S_IFBLK ∧ S_IFBLK ≠ S_IFDIR ∧
    (findAutofillStrings
        (fun _ => some [{ d_name := "sda".toList, d_type := .DT_LNK, st_mode := 25008 },
          { d_name := "sdb".toList, d_type := .other, st_mode := 0 }])
        "sd".toList 2 "/dev/".toList).elems
      = [some "sda/".toList, some "sdb".toList] := by
  decide

/-! ## Home-directory expansion without `HOME` -/

/-- Claim C13, the code at the token `~/x`. With `HOME` unset `getenv` returns
`NULL`, which `strlcpy` reads through before the user database is consulted;
with `HOME` empty and no entry in the user database, `user->pw_dir` reads
through `NULL`. Only an empty `HOME` with an entry reaches the fallback. -/
theorem homeDirSubstitution_faults_without_home :
    homeDirSubstitution { HOME := none, pwDir := some "/home/u".toList } "~/x".toList 3
      = .error .nullDeref ∧
    homeDirSubstitution { HOME := none, pwDir := none } "~/x".toList 3 = .error .nullDeref ∧
    homeDirSubstitution { HOME := some [], pwDir := none } "~/x".toList 3
      = .error .nullDeref ∧
    homeDirSubstitution { HOME := some [], pwDir := some "/home/u".toList } "~/x".toList 3
      = .ok "/home/u/x".toList := by
  decide

/-! ## Pipelines with a builtin or an empty stage -/

/-- Claim C15, the code at `cd /tmp | ls` and at `ls | cd /tmp`. In the first
the builtin stage `cd /tmp` is run as a builtin (the working directory becomes
`/tmp`) and then spawned as a program all the same; in the second no stage is
spawned, the program `ls` included.  `processTokens`, whose header says that it
processes the tokens which are not builtin commands, has no test for a builtin
name. -/
theorem processTokens_spawns_builtin_stage :
    runCommands plainOs homeEnv
        [tokenVector ["cd".toList, "/tmp".toList] 6, tokenVector ["ls".toList] 7] 2
        (initialSession "/home/u".toList)
      = .ok (.returned false
          { cwd := "/tmp".toList, prevDir := "/home/u".toList,
            events :=
              [.spawned 0 (some "cd".toList) [some "cd".toList, some "/tmp".toList],
               .spawned 1 (some "ls".toList) [some "ls".toList]] }) ∧
    runCommands plainOs homeEnv
        [tokenVector ["ls".toList] 7, tokenVector ["cd".toList, "/tmp".toList] 6] 2
        (initialSession "/home/u".toList)
      = .ok (.returned true
          { cwd := "/tmp".toList, prevDir := "/home/u".toList, events := [] }) := by
  decide

/-- Claim C16, the code at `ls |`. The second stage has no token. Its `arr[0]`,
a `NULL`, is read as a builtin name by `checkBuiltinCmd`, a fault; and
`processTokens`, which skips a stage only when its `capacity` is 0, spawns a
child for it. -/
theorem empty_stage_is_not_skipped :
    (buildPipeline (tokenVector ["ls".toList, "|".toList] 6)).map (fun p => (p.numCmds, p.commands))
      = .ok (2, [tokenVector ["ls".toList] 7, tokenVector [] 8]) ∧
    checkBuiltinCmd plainOs homeEnv [tokenVector ["ls".toList] 7, tokenVector [] 8] 2
        (initialSession "/home/u".toList)
      = .error .nullDeref ∧
    (processTokens plainOs [tokenVector ["ls".toList] 7, tokenVector [] 8] 2
        (initialSession "/home/u".toList)).events
      = [.spawned 0 (some "ls".toList) [some "ls".toList], .spawned 1 none []] := by
  decide

/-! ## Typing after a history recall -/

set_option maxRecDepth 100000 in
/-- Claim C19, the code after the keys `abcdef` and Up, with `ls` in History.
The recall writes `ls` and a NUL over `abc` and leaves `def` behind it; the
buffer holds `ls`, the cursor is 2.  The key `x` then replaces the NUL, and the
buffer holds `lsxdef`, not `lsx`. -/
theorem typed_character_uncovers_stale_bytes :
    (getInput homeEnv readmeFs (zeroPadded [] CMD_SIZE) CMD_SIZE
        (vectorInsert (vectorInit 128) (some "ls".toList) 2)
        ("abcdef".toList ++ [Char.ofNat 0x1b, '[', 'A'])).map
      (fun r =>
        match r with
        | .reading st => some (bufferString st.buffer, st.i)
        | .returned _ _ => none)
      = .ok (some ("ls".toList, 2)) ∧
    (getInput homeEnv readmeFs (zeroPadded [] CMD_SIZE) CMD_SIZE
        (vectorInsert (vectorInit 128) (some "ls".toList) 2)
        ("abcdef".toList ++ [Char.ofNat 0x1b, '[', 'A'] ++ ['x'])).map
      (fun r =>
        match r with
        | .reading st => some (bufferString st.buffer, st.i)
        | .returned _ _ => none)
      = .ok (some ("lsxdef".toList, 3)) := by
  decide

/-! ## The builtin `cd` -/

theorem strncmp_exact (t lit : CStr) : strncmp t lit (lit.length + 1) = .eq ↔ t = lit := by
  rw [strncmp_eq_iff, List.take_of_length_le (Nat.le_succ lit.length)]
  constructor
  · intro h
    have hl := congrArg List.length h
    rw [List.length_take] at hl
    have : t.length ≤ lit.length + 1 := by omega
    rwa [List.take_of_length_le this] at h
  · rintro rfl
    exact List.take_of_length_le (Nat.le_succ _)

theorem strncmp_cd (t : CStr) : strncmp t "cd".toList 3 = .eq ↔ t = "cd".toList :=
  strncmp_exact t "cd".toList

theorem strncmp_exit (t : CStr) : strncmp t "exit".toList 5 = .eq ↔ t = "exit".toList :=
  strncmp_exact t "exit".toList

theorem strncmp_exec (t : CStr) : strncmp t "exec".toList 5 = .eq ↔ t = "exec".toList :=
  strncmp_exact t "exec".toList

theorem strncmp_dash (t : CStr) : strncmp t "-".toList 2 = .eq ↔ t = "-".toList :=
  strncmp_exact t "-".toList

theorem tokenVector_slot0 (a : CStr) (rest : List CStr) (extra : Nat) :
    (tokenVector (a :: rest) extra).arr.getD 0 none = some a := by
  simp [tokenVector]

theorem tokenVector_slot1 (a b : CStr) (rest : List CStr) (extra : Nat) :
    (tokenVector (a :: b :: rest) extra).arr.getD 1 none = some b := by
  simp [tokenVector]

theorem getcwd_ok (os : Os) (cwd : CStr) (h1 : os.getcwdFails cwd = false)
    (h2 : cwd.length < PATH_MAX) : getcwd os cwd PATH_MAX = some cwd := by
  unfold getcwd
  rw [if_neg]
  rintro (h | h)
  · rw [h1] at h; exact absurd h (by decide)
  · omega

theorem builtinStage_cd_dash_unset (os : Os) (env : Env) (numCmds i extra : Nat) (s : Session)
    (hprev : s.prevDir = []) :
    builtinStage os env numCmds i (tokenVector ["cd".toList, "-".toList] extra) s
      = .ok (.next true { s with
          events := s.events ++ [.printed "cd: Previous Directory is not set\n".toList] }) := by
  unfold builtinStage
  rw [tokenVector_slot0]
  simp only
  rw [if_pos ((strncmp_cd _).mpr rfl), if_neg (by simp [tokenVector]), tokenVector_slot1]
  simp only
  rw [if_pos ((strncmp_dash _).mpr rfl), if_pos (by simp [hprev, strnlen])]

/-- Claim C17. When no previous directory is remembered, as in the session at
its start, the stage `cd -` prints `cd: Previous Directory is not set` and is
left with `status` set; the command `cd -` makes `checkBuiltinCmd` return `true`.
The working directory and the remembered previous directory keep their values. -/
theorem cd_dash_without_previous (os : Os) (env : Env) (numCmds i extra : Nat) (s : Session)
    (hprev : s.prevDir = []) :
    builtinStage os env numCmds i (tokenVector ["cd".toList, "-".toList] extra) s
      = .ok (.next true
          { cwd := s.cwd, prevDir := s.prevDir,
            events := s.events ++ [.printed "cd: Previous Directory is not set\n".toList] }) ∧
    checkBuiltinCmd os env [tokenVector ["cd".toList, "-".toList] extra] 1 s
      = .ok (.returned true
          { cwd := s.cwd, prevDir := s.prevDir,
            events := s.events ++ [.printed "cd: Previous Directory is not set\n".toList] }) ∧
    ∀ cwd : CStr, (initialSession cwd).prevDir = [] := by
  have h := builtinStage_cd_dash_unset os env
  refine ⟨h numCmds i extra s hprev, ?_, fun _ => rfl⟩
  simp only [checkBuiltinCmd, Nat.one_ne_zero, if_false, List.take, checkBuiltinLoop,
    h 1 0 extra s hprev]

theorem cd_dash_without_previous_witness :
    builtinStage plainOs homeEnv 2 1 (tokenVector ["cd".toList, "-".toList] 6)
        (initialSession "/home/u".toList)
      = .ok (.next true
          { cwd := "/home/u".toList, prevDir := [],
            events := [.printed "cd: Previous Directory is not set\n".toList] }) ∧
    checkBuiltinCmd plainOs homeEnv [tokenVector ["cd".toList, "-".toList] 6] 1
        (initialSession "/home/u".toList)
      = .ok (.returned true
          { cwd := "/home/u".toList, prevDir := [],
            events := [.printed "cd: Previous Directory is not set\n".toList] }) ∧
    ∀ cwd : CStr, (initialSession cwd).prevDir = [] :=
  cd_dash_without_previous plainOs homeEnv 2 1 6 (initialSession "/home/u".toList) rfl

theorem checkBuiltinCmd_single (os : Os) (env : Env) (stage : Vector) (s : Session) :
    checkBuiltinCmd os env [stage] 1 s
      = match builtinStage os env 1 0 stage s with
        | .error e => .error e
        | .ok (.next status s) => .ok (.returned status s)
        | .ok (.ret status s) => .ok (.returned status s)
        | .ok (.exit s) => .ok (.exited s) := by
  simp only [checkBuiltinCmd, Nat.one_ne_zero, if_false, List.take, checkBuiltinLoop]

theorem builtinStage_cd_path (os : Os) (env : Env) (numCmds i extra : Nat) (s : Session)
    (p : CStr) (hp : p ≠ "-".toList) (hcwd : os.getcwdFails s.cwd = false)
    (hlen : s.cwd.length < PATH_MAX) :
    builtinStage os env numCmds i (tokenVector ["cd".toList, p] extra) s
      = match os.chdir s.cwd p with
        | some dir => .ok (.next true { s with cwd := dir, prevDir := s.cwd })
        | none => .ok (.next true { s with
            events := s.events ++
              [.printed ("cd: ".toList ++ p ++ " is not a file or directory\n".toList)] }) := by
  unfold builtinStage
  rw [tokenVector_slot0]
  simp only
  rw [if_pos ((strncmp_cd _).mpr rfl), if_neg (by simp [tokenVector]), tokenVector_slot1]
  simp only
  rw [if_neg (fun h => hp ((strncmp_dash _).mp h)), getcwd_ok os s.cwd hcwd hlen]
  simp only
  have : strlcpyString s.cwd PATH_MAX = s.cwd := List.take_of_length_le (by omega)
  rw [this]

theorem builtinStage_cd_dash_set (os : Os) (env : Env) (numCmds i extra : Nat) (s : Session)
    (hprev : s.prevDir ≠ []) (hplen : s.prevDir.length < PATH_MAX)
    (hcwd : os.getcwdFails s.cwd = false) (hlen : s.cwd.length < PATH_MAX) :
    builtinStage os env numCmds i (tokenVector ["cd".toList, "-".toList] extra) s
      = .ok (.next true { s with
          cwd := (match os.chdir s.cwd s.prevDir with
            | none => s.cwd
            | some dir => dir)
          prevDir := s.cwd }) := by
  unfold builtinStage
  rw [tokenVector_slot0]
  simp only
  rw [if_pos ((strncmp_cd _).mpr rfl), if_neg (by simp [tokenVector]), tokenVector_slot1]
  simp only
  have hn : strnlen s.prevDir PATH_MAX ≠ 0 := by
    have := List.length_pos.mpr hprev
    simp only [strnlen]
    omega
  rw [if_pos ((strncmp_dash _).mpr rfl), if_neg hn, getcwd_ok os s.cwd hcwd hlen]
  have : strlcpyString s.prevDir PATH_MAX = s.prevDir := List.take_of_length_le (by omega)
  rw [this]

/-- Claim C18. Let `d` be the working directory, which `getcwd` reports, and
`p` a path other than `-`.  If `chdir(p)` succeeds, the command `cd p` enters
the directory and remembers `d`; a following `cd -`, when `d` can be entered
again, makes `d` the working directory and remembers the directory `cd p` had
entered.  If `chdir(p)` fails, `cd p` leaves the working directory and the
remembered directory as they were and prints that `p` is not a file or
directory. -/
theorem cd_path_then_back (os : Os) (env : Env) (extra : Nat) (s : Session) (p : CStr)
    (hp : p ≠ "-".toList) (hcwd : os.getcwdFails s.cwd = false)
    (hlen : s.cwd.length < PATH_MAX) (hne : s.cwd ≠ []) :
    (∀ e : CStr, os.chdir s.cwd p = some e →
      checkBuiltinCmd os env [tokenVector ["cd".toList, p] extra] 1 s
        = .ok (.returned true { cwd := e, prevDir := s.cwd, events := s.events }) ∧
      (os.getcwdFails e = false → e.length < PATH_MAX → os.chdir e s.cwd = some s.cwd →
        checkBuiltinCmd os env [tokenVector ["cd".toList, "-".toList] extra] 1
            { cwd := e, prevDir := s.cwd, events := s.events }
          = .ok (.returned true { cwd := s.cwd, prevDir := e, events := s.events }))) ∧
    (os.chdir s.cwd p = none →
      checkBuiltinCmd os env [tokenVector ["cd".toList, p] extra] 1 s
        = .ok (.returned true
            { cwd := s.cwd, prevDir := s.prevDir,
              events := s.events ++
                [.printed ("cd: ".toList ++ p ++ " is not a file or directory\n".toList)] })) := by
  refine ⟨fun e he => ⟨?_, fun he1 he2 he3 => ?_⟩, fun hfail => ?_⟩
  · rw [checkBuiltinCmd_single, builtinStage_cd_path os env 1 0 extra s p hp hcwd hlen, he]
  · rw [checkBuiltinCmd_single,
      builtinStage_cd_dash_set os env 1 0 extra { cwd := e, prevDir := s.cwd, events := s.events }
        hne hlen he1 he2]
    simp only [he3]
  · rw [checkBuiltinCmd_single, builtinStage_cd_path os env 1 0 extra s p hp hcwd hlen, hfail]

theorem cd_path_then_back_witness :
    (∀ e : CStr, plainOs.chdir "/home/u".toList "/tmp".toList = some e →
      checkBuiltinCmd plainOs homeEnv [tokenVector ["cd".toList, "/tmp".toList] 6] 1
          (initialSession "/home/u".toList)
        = .ok (.returned true { cwd := e, prevDir := "/home/u".toList, events := [] }) ∧
      (plainOs.getcwdFails e = false → e.length < PATH_MAX →
        plainOs.chdir e "/home/u".toList = some "/home/u".toList →
        checkBuiltinCmd plainOs homeEnv [tokenVector ["cd".toList, "-".toList] 6] 1
            { cwd := e, prevDir := "/home/u".toList, events := [] }
          = .ok (.returned true { cwd := "/home/u".toList, prevDir := e, events := [] }))) ∧
    (plainOs.chdir "/home/u".toList "/tmp".toList = none →
      checkBuiltinCmd plainOs homeEnv [tokenVector ["cd".toList, "/tmp".toList] 6] 1
          (initialSession "/home/u".toList)
        = .ok (.returned true
            { cwd := "/home/u".toList, prevDir := [],
              events :=
                [.printed ("cd: ".toList ++ "/tmp".toList ++
                  " is not a file or directory\n".toList)] })) :=
  cd_path_then_back plainOs homeEnv 6 (initialSession "/home/u".toList) "/tmp".toList
    (by decide) rfl (by decide) (by decide)

/-! ## `checkBuiltinCmd` and `processTokens` on a pipeline without `exit` -/

theorem spawnedStages_append_printed (events : List Event) (text : CStr) :
    spawnedStages (events ++ [.printed text]) = spawnedStages events := by
  simp [spawnedStages, List.filterMap_append]

theorem spawnedStages_append_executed (events : List Event) (i : Nat) (file : Option CStr)
    (argv : List (Option CStr)) :
    spawnedStages (events ++ [.executed i file argv]) = spawnedStages events := by
  simp [spawnedStages, List.filterMap_append]

theorem spawnedStages_append_spawned (events : List Event) (i : Nat) (file : Option CStr)
    (argv : List (Option CStr)) :
    spawnedStages (events ++ [.spawned i file argv]) = spawnedStages events ++ [i] := by
  simp [spawnedStages, List.filterMap_append]

theorem builtinStage_no_exit (os : Os) (env : Env) (numCmds i : Nat) (toks : List CStr)
    (extra : Nat) (s : Session) (hne : toks ≠ []) (hexit : toks.head? ≠ some "exit".toList)
    (hgc : ∀ d, os.getcwdFails d = false)
    (hch : ∀ d p e, os.chdir d p = some e → e.length < PATH_MAX)
    (hpipe : ∀ k, os.execPipe k = true) (hs : s.cwd.length < PATH_MAX) :
    ∃ s', builtinStage os env numCmds i (tokenVector toks extra) s
        = .ok (.next (handledAsBuiltin os i toks) s') ∧
      s'.cwd.length < PATH_MAX ∧ spawnedStages s'.events = spawnedStages s.events := by
  match toks, hne, hexit with
  | cmd :: rest, _, hexit =>
    have hexit' : cmd ≠ "exit".toList := fun h => hexit (by simp [h])
    unfold builtinStage
    rw [tokenVector_slot0]
    simp only
    by_cases hcd : cmd = "cd".toList
    · subst hcd
      have hh : handledAsBuiltin os i ("cd".toList :: rest) = true := by
        simp [handledAsBuiltin]
      rw [if_pos ((strncmp_cd _).mpr rfl), hh]
      match rest with
      | [] =>
        rw [if_pos (by simp [tokenVector]), getcwd_ok os s.cwd (hgc _) hs]
        simp only
        cases hm : (match env.HOME with
            | none => none
            | some homeDir => os.chdir s.cwd homeDir) with
        | none => exact ⟨_, rfl, hs, rfl⟩
        | some dir =>
          refine ⟨_, rfl, ?_, rfl⟩
          cases hH : env.HOME with
          | none => rw [hH] at hm; simp at hm
          | some homeDir => rw [hH] at hm; exact hch _ _ _ hm
      | arg :: rest' =>
        rw [if_neg (by simp [tokenVector]), tokenVector_slot1]
        simp only
        by_cases hd : arg = "-".toList
        · rw [if_pos ((strncmp_dash _).mpr hd)]
          by_cases hp : strnlen s.prevDir PATH_MAX = 0
          · rw [if_pos hp]
            exact ⟨_, rfl, hs, spawnedStages_append_printed _ _⟩
          · rw [if_neg hp]
            refine ⟨_, rfl, ?_, rfl⟩
            simp only
            cases hc : os.chdir s.cwd (strlcpyString s.prevDir PATH_MAX) with
            | none => exact hs
            | some dir => exact hch _ _ _ hc
        · rw [if_neg (fun h => hd ((strncmp_dash _).mp h)), getcwd_ok os s.cwd (hgc _) hs]
          simp only
          cases hc : os.chdir s.cwd arg with
          | none => exact ⟨_, rfl, hs, spawnedStages_append_printed _ _⟩
          | some dir => exact ⟨_, rfl, hch _ _ _ hc, rfl⟩
    · rw [if_neg (fun h => hcd ((strncmp_cd _).mp h)),
        if_neg (fun h => hexit' ((strncmp_exit _).mp h))]
      by_cases hex : cmd = "exec".toList
      · subst hex
        rw [if_pos ((strncmp_exec _).mpr rfl), if_neg (by simp [hpipe])]
        by_cases hf : os.execFork i = true
        · have hh : handledAsBuiltin os i ("exec".toList :: rest) = true := by
            simp [handledAsBuiltin, hf]
          rw [if_pos hf, hh]
          exact ⟨_, rfl, hs, spawnedStages_append_executed _ _ _ _⟩
        · have hh : handledAsBuiltin os i ("exec".toList :: rest) = false := by
            simp [handledAsBuiltin, hf]
          rw [if_neg hf, hh]
          exact ⟨_, rfl, hs, rfl⟩
      · have hcd' : ¬ cmd = ['c', 'd'] := hcd
        have hex' : ¬ cmd = ['e', 'x', 'e', 'c'] := hex
        have hh : handledAsBuiltin os i (cmd :: rest) = false := by
          simp [handledAsBuiltin, hcd', hex']
        rw [if_neg (fun h => hex ((strncmp_exec _).mp h)), hh]
        exact ⟨_, rfl, hs, rfl⟩

theorem checkBuiltinLoop_no_exit (os : Os) (env : Env) (numCmds : Nat)
    (hgc : ∀ d, os.getcwdFails d = false)
    (hch : ∀ d p e, os.chdir d p = some e → e.length < PATH_MAX)
    (hpipe : ∀ k, os.execPipe k = true) (last : List CStr) (extra : Nat)
    (hlast : last ≠ [] ∧ last.head? ≠ some "exit".toList) :
    ∀ (earlier : List (List CStr × Nat)) (i : Nat) (status : Bool) (s : Session),
      (∀ t ∈ earlier, t.1 ≠ [] ∧ t.1.head? ≠ some "exit".toList) →
      s.cwd.length < PATH_MAX →
      ∃ s', checkBuiltinLoop os env numCmds
            (earlier.map (fun t => tokenVector t.1 t.2) ++ [tokenVector last extra]) i status s
          = .ok (.returned (handledAsBuiltin os (i + earlier.length) last) s') ∧
        spawnedStages s'.events = spawnedStages s.events := by
  intro earlier
  induction earlier with
  | nil =>
    intro i status s _ hs
    obtain ⟨s', h1, -, h3⟩ := builtinStage_no_exit os env numCmds i last extra s hlast.1 hlast.2
      hgc hch hpipe hs
    exact ⟨s', by simp [checkBuiltinLoop, h1], h3⟩
  | cons t earlier ih =>
    intro i status s hall hs
    obtain ⟨h1, h2⟩ := hall t (List.mem_cons_self _ _)
    obtain ⟨s1, e1, e2, e3⟩ := builtinStage_no_exit os env numCmds i t.1 t.2 s h1 h2
      hgc hch hpipe hs
    obtain ⟨s', e4, e5⟩ := ih (i + 1) (handledAsBuiltin os i t.1) s1
      (fun u hu => hall u (List.mem_cons_of_mem _ hu)) e2
    refine ⟨s', ?_, by rw [e5, e3]⟩
    have harith : i + 1 + earlier.length = i + (earlier.length + 1) := by omega
    rw [harith] at e4
    simp only [List.map_cons, List.cons_append, checkBuiltinLoop, e1, List.length_cons]
    exact e4

theorem checkBuiltinCmd_no_exit (os : Os) (env : Env)
    (earlier : List (List CStr × Nat)) (last : List CStr) (extra : Nat) (s : Session)
    (hgc : ∀ d, os.getcwdFails d = false)
    (hch : ∀ d p e, os.chdir d p = some e → e.length < PATH_MAX)
    (hpipe : ∀ k, os.execPipe k = true)
    (hearlier : ∀ t ∈ earlier, t.1 ≠ [] ∧ t.1.head? ≠ some "exit".toList)
    (hlast : last ≠ [] ∧ last.head? ≠ some "exit".toList)
    (hs : s.cwd.length < PATH_MAX) :
    ∃ s', checkBuiltinCmd os env
          (earlier.map (fun t => tokenVector t.1 t.2) ++ [tokenVector last extra])
          (earlier.length + 1) s
        = .ok (.returned (handledAsBuiltin os earlier.length last) s') ∧
      spawnedStages s'.events = spawnedStages s.events := by
  obtain ⟨s', h1, h2⟩ := checkBuiltinLoop_no_exit os env (earlier.length + 1) hgc hch hpipe
    last extra hlast earlier 0 false s hearlier hs
  refine ⟨s', ?_, h2⟩
  have htake : List.take (earlier.length + 1)
      (earlier.map (fun t => tokenVector t.1 t.2) ++ [tokenVector last extra])
      = earlier.map (fun t => tokenVector t.1 t.2) ++ [tokenVector last extra] :=
    List.take_of_length_le (by simp)
  rw [checkBuiltinCmd, if_neg (Nat.succ_ne_zero _), htake, h1, Nat.zero_add]

theorem processLoop_spawns_all (os : Os) (hpipe : ∀ k, os.spawnPipe k = true)
    (hfork : ∀ k, os.spawnFork k = true) :
    ∀ (commands : List Vector) (i : Nat) (s : Session),
      (∀ c ∈ commands, c.capacity ≠ 0) →
      spawnedStages (processLoop os commands i s).events
        = spawnedStages s.events ++ List.range' i commands.length := by
  intro commands
  induction commands with
  | nil => intro i s _; simp [processLoop]
  | cons c commands ih =>
    intro i s hall
    have hc := hall c (List.mem_cons_self _ _)
    rw [processLoop, if_neg hc, if_neg (by simp [hpipe]), if_pos (hfork i),
      ih (i + 1) _ (fun u hu => hall u (List.mem_cons_of_mem _ hu))]
    simp only [spawnedStages_append_spawned, List.length_cons, List.range'_succ,
      List.append_assoc, List.singleton_append]

theorem plainOs_chdir_short (d p e : CStr) (h : plainOs.chdir d p = some e) :
    e.length < PATH_MAX := by
  simp only [plainOs] at h
  split at h
  · cases h; assumption
  · cases h

/-- How lines 117-118 of `main` come to spawn a builtin stage or to drop a
program. For a pipeline of stages with at least one token each, none of them an
`exit` stage, when `getcwd`, `pipe` and `fork` do not fail: `processTokens` runs
exactly when the last stage is not handled as a builtin, and it then spawns a
child for every stage in order, the stages whose first token is a builtin name
included; when the last stage is handled as a builtin, no stage is spawned. -/
theorem processTokens_runs_by_last_stage (os : Os) (env : Env)
    (earlier : List (List CStr × Nat)) (last : List CStr) (extra : Nat) (s : Session)
    (hgc : ∀ d, os.getcwdFails d = false)
    (hch : ∀ d p e, os.chdir d p = some e → e.length < PATH_MAX)
    (hpipe : ∀ k, os.execPipe k = true)
    (hspipe : ∀ k, os.spawnPipe k = true) (hsfork : ∀ k, os.spawnFork k = true)
    (hearlier : ∀ t ∈ earlier, t.1 ≠ [] ∧ t.1.head? ≠ some "exit".toList)
    (hlast : last ≠ [] ∧ last.head? ≠ some "exit".toList)
    (hs : s.cwd.length < PATH_MAX) :
    ∃ s', runCommands os env
          (earlier.map (fun t => tokenVector t.1 t.2) ++ [tokenVector last extra])
          (earlier.length + 1) s
        = .ok (.returned (handledAsBuiltin os earlier.length last) s') ∧
      spawnedStages s'.events
        = spawnedStages s.events ++
          (if handledAsBuiltin os earlier.length last then []
            else List.range (earlier.length + 1)) := by
  obtain ⟨s1, h1, h2⟩ := checkBuiltinCmd_no_exit os env earlier last extra s hgc hch hpipe
    hearlier hlast hs
  cases hh : handledAsBuiltin os earlier.length last with
  | true =>
    rw [hh] at h1
    exact ⟨s1, by simp only [runCommands, h1], by simpa using h2⟩
  | false =>
    rw [hh] at h1
    refine ⟨processTokens os
      (earlier.map (fun t => tokenVector t.1 t.2) ++ [tokenVector last extra])
      (earlier.length + 1) s1, by simp only [runCommands, h1], ?_⟩
    have htake : List.take (earlier.length + 1)
        (earlier.map (fun t => tokenVector t.1 t.2) ++ [tokenVector last extra])
        = earlier.map (fun t => tokenVector t.1 t.2) ++ [tokenVector last extra] :=
      List.take_of_length_le (by simp)
    have hcap : ∀ c ∈ earlier.map (fun t => tokenVector t.1 t.2) ++ [tokenVector last extra],
        c.capacity ≠ 0 := by
      intro c hc
      rcases List.mem_append.mp hc with hc | hc
      · obtain ⟨t, ht, rfl⟩ := List.mem_map.mp hc
        have := List.length_pos.mpr (hearlier t ht).1
        simp only [tokenVector]
        omega
      · rw [List.mem_singleton] at hc
        subst hc
        have := List.length_pos.mpr hlast.1
        simp only [tokenVector]
        omega
    rw [processTokens, if_neg (Nat.succ_ne_zero _), htake,
      processLoop_spawns_all os hspipe hsfork _ 0 s1 hcap, h2]
    simp [List.range_eq_range']

theorem processTokens_runs_by_last_stage_witness :
    ∃ s', runCommands plainOs homeEnv
          ([(["cd".toList, "/tmp".toList], 6)].map (fun t => tokenVector t.1 t.2) ++
            [tokenVector ["ls".toList] 7])
          ([(["cd".toList, "/tmp".toList], 6)].length + 1) (initialSession "/home/u".toList)
        = .ok (.returned
            (handledAsBuiltin plainOs [(["cd".toList, "/tmp".toList], 6)].length ["ls".toList])
            s') ∧
      spawnedStages s'.events
        = spawnedStages (initialSession "/home/u".toList).events ++
          (if handledAsBuiltin plainOs [(["cd".toList, "/tmp".toList], 6)].length ["ls".toList]
            then []
            else List.range ([(["cd".toList, "/tmp".toList], 6)].length + 1)) :=
  processTokens_runs_by_last_stage plainOs homeEnv [(["cd".toList, "/tmp".toList], 6)]
    ["ls".toList] 7 (initialSession "/home/u".toList) (fun _ => rfl) plainOs_chdir_short
    (fun _ => rfl) (fun _ => rfl) (fun _ => rfl) (by decide) (by decide) (by decide)

/-! ## Home-directory expansion -/

theorem homeDir_assemble (homeDir rest : CStr) (h1 : homeDir.length ≤ PATH_MAX)
    (h2 : rest.length ≤ CMD_SIZE) :
    strlcatString
        (strlcpyString homeDir (strnlen homeDir PATH_MAX + strnlen rest CMD_SIZE + 1)) rest
        (strnlen homeDir PATH_MAX + strnlen rest CMD_SIZE + 1)
      = homeDir ++ rest := by
  have e1 : strnlen homeDir PATH_MAX = homeDir.length := by simp only [strnlen]; omega
  have e2 : strnlen rest CMD_SIZE = rest.length := by simp only [strnlen]; omega
  rw [e1, e2]
  have e3 : strlcpyString homeDir (homeDir.length + rest.length + 1) = homeDir :=
    List.take_of_length_le (by omega)
  rw [e3, strlcatString, if_neg (by omega), List.take_of_length_le (by omega)]

theorem uname_of_token (name rest : CStr) (hslash : '/' ∉ name)
    (hrest : rest = [] ∨ rest.head? = some '/')
    (htok : ('~' :: (name ++ rest)).length ≤ CMD_SIZE) :
    ((('~' :: (name ++ rest)).take (strnlen ('~' :: (name ++ rest)) CMD_SIZE)).drop 1).takeWhile
        (· ≠ '/') = name := by
  have e1 : strnlen ('~' :: (name ++ rest)) CMD_SIZE = ('~' :: (name ++ rest)).length := by
    simp only [strnlen]; omega
  rw [e1, List.take_of_length_le le_rfl, List.drop_one, List.tail_cons,
    List.takeWhile_append_of_pos]
  · rcases hrest with h | h
    · subst h; simp
    · cases rest with
      | nil => simp at h
      | cons c rest =>
        simp only [List.head?_cons, Option.some.injEq] at h
        subst h
        simp
  · intro c hc
    simp only [ne_eq, decide_eq_true_eq]
    rintro rfl
    exact hslash hc

theorem homeDirSubstitution_tilde (env : Env) (name rest : CStr) (hslash : '/' ∉ name)
    (hlen : name.length < SC_LOGIN_NAME_MAX) (hrest : rest = [] ∨ rest.head? = some '/')
    (htok : ('~' :: (name ++ rest)).length ≤ CMD_SIZE) :
    (name ≠ [] →
      homeDirSubstitution env ('~' :: (name ++ rest)) (strnlen ('~' :: (name ++ rest)) CMD_SIZE)
        = .ok ("/home/".toList ++ name ++ "/".toList ++ rest)) ∧
    (name = [] → ∀ home : CStr, env.HOME = some home → home ≠ [] → home.length < PATH_MAX →
      homeDirSubstitution env ('~' :: (name ++ rest)) (strnlen ('~' :: (name ++ rest)) CMD_SIZE)
        = .ok (home ++ rest)) := by
  have hsize : strnlen ('~' :: (name ++ rest)) CMD_SIZE ≠ 0 := by
    simp only [strnlen, List.length_cons, CMD_SIZE]; omega
  have hun := uname_of_token name rest hslash hrest htok
  have hrl : rest.length ≤ CMD_SIZE := by
    simp only [List.length_cons, List.length_append] at htok; omega
  have h0 : charAt ('~' :: (name ++ rest)) 0 = '~' := rfl
  have hdrop : List.drop (1 + name.length) ('~' :: (name ++ rest)) = rest := by
    rw [Nat.add_comm, List.drop_succ_cons, List.drop_left' rfl]
  constructor
  · intro hne
    have hn : strnlen name SC_LOGIN_NAME_MAX ≠ 0 := by
      have := List.length_pos.mpr hne
      simp only [strnlen, SC_LOGIN_NAME_MAX]
      omega
    have hhl : ("/home/".toList ++ name ++ "/".toList).length ≤ PATH_MAX - 1 := by
      have e6 : "/home/".toList.length = 6 := rfl
      have e7 : "/".toList.length = 1 := rfl
      simp only [List.length_append, e6, e7, PATH_MAX]
      simp only [SC_LOGIN_NAME_MAX] at hlen
      omega
    unfold homeDirSubstitution
    rw [if_neg hsize, if_pos h0]
    simp only [hun]
    rw [if_neg (by omega), if_pos hn, List.take_of_length_le hhl]
    simp only [hdrop]
    rw [homeDir_assemble _ rest (by omega) hrl]
  · intro hnil home hH hne hhl
    subst hnil
    have hn : strnlen ([] : CStr) SC_LOGIN_NAME_MAX = 0 := rfl
    have hcp : strlcpyString home PATH_MAX = home := List.take_of_length_le (by omega)
    have hnz : strnlen home PATH_MAX ≠ 0 := by
      have := List.length_pos.mpr hne
      simp only [strnlen]
      omega
    unfold homeDirSubstitution
    rw [if_neg hsize, if_pos h0]
    simp only [hun]
    rw [if_neg (by simp [SC_LOGIN_NAME_MAX])]
    simp only [hn, ne_eq, not_true_eq_false, if_false, hH, hcp, hnz]
    simp only [List.length_nil, Nat.add_zero] at hdrop
    simp only [List.length_nil, Nat.add_zero, hdrop]
    rw [homeDir_assemble home rest (by omega) hrl]

/-- Claim C12, as amended. Let a token of at most `CMD_SIZE` characters be
`~` followed by `name`, which has no `/` and fewer characters than the
user-name array of `homeDirSubstitution` has bytes, and by `rest`, which is
empty or begins with `/`.  If `name` is not empty the token becomes `/home/`,
`name`, `/`, `rest`; if `name` is empty and `HOME` is set to a non-empty value
shorter than `PATH_MAX`, it becomes that value followed by `rest`.  A token
whose first character is not `~` is left as it is. -/
theorem homeDirSubstitution_expands (env : Env) (name rest : CStr) (hslash : '/' ∉ name)
    (hlen : name.length < SC_LOGIN_NAME_MAX) (hrest : rest = [] ∨ rest.head? = some '/')
    (htok : ('~' :: (name ++ rest)).length ≤ CMD_SIZE) :
    (name ≠ [] →
      homeDirSubstitution env ('~' :: (name ++ rest)) (strnlen ('~' :: (name ++ rest)) CMD_SIZE)
        = .ok ("/home/".toList ++ name ++ "/".toList ++ rest)) ∧
    (name = [] → ∀ home : CStr, env.HOME = some home → home ≠ [] → home.length < PATH_MAX →
      homeDirSubstitution env ('~' :: (name ++ rest)) (strnlen ('~' :: (name ++ rest)) CMD_SIZE)
        = .ok (home ++ rest)) ∧
    (∀ (tok : CStr) (size : Nat), tok.head? ≠ some '~' →
      homeDirSubstitution env tok size = .ok tok) :=
  ⟨(homeDirSubstitution_tilde env name rest hslash hlen hrest htok).1,
    (homeDirSubstitution_tilde env name rest hslash hlen hrest htok).2,
    fun tok size h => homeDirSubstitution_no_tilde env tok size h⟩

theorem homeDirSubstitution_expands_witness :
    ("bob".toList ≠ [] →
      homeDirSubstitution homeEnv ('~' :: ("bob".toList ++ "/x".toList))
          (strnlen ('~' :: ("bob".toList ++ "/x".toList)) CMD_SIZE)
        = .ok ("/home/".toList ++ "bob".toList ++ "/".toList ++ "/x".toList)) ∧
    ("bob".toList = [] → ∀ home : CStr, homeEnv.HOME = some home → home ≠ [] →
      home.length < PATH_MAX →
      homeDirSubstitution homeEnv ('~' :: ("bob".toList ++ "/x".toList))
          (strnlen ('~' :: ("bob".toList ++ "/x".toList)) CMD_SIZE)
        = .ok (home ++ "/x".toList)) ∧
    (∀ (tok : CStr) (size : Nat), tok.head? ≠ some '~' →
      homeDirSubstitution homeEnv tok size = .ok tok) :=
  homeDirSubstitution_expands homeEnv "bob".toList "/x".toList (by decide) (by decide)
    (Or.inr rfl) (by decide)

theorem homeDirSubstitution_bare_tilde (home : CStr) (pw : Option CStr) (hne : home ≠ []) :
    homeDirSubstitution { HOME := some home, pwDir := pw } "~".toList 1
      = .ok (home.take (PATH_MAX - 1)) := by
  have hun : ((("~".toList).take (strnlen "~".toList CMD_SIZE)).drop 1).takeWhile (· ≠ '/')
      = [] := by decide
  have hnz : strnlen (strlcpyString home PATH_MAX) PATH_MAX ≠ 0 := by
    have := List.length_pos.mpr hne
    simp only [strnlen, strlcpyString, List.length_take, PATH_MAX]
    omega
  have hdrop : List.drop (1 + 0) "~".toList = [] := rfl
  have hasm := homeDir_assemble (strlcpyString home PATH_MAX) []
    (by simp only [strlcpyString, List.length_take, PATH_MAX]; omega) (by decide)
  unfold homeDirSubstitution
  rw [if_neg Nat.one_ne_zero, if_pos (show charAt "~".toList 0 = '~' from rfl)]
  simp only [hun]
  rw [if_neg (by decide)]
  simp only [List.length_nil, hnz, hdrop, if_false]
  rw [if_neg (by decide)]
  simp only []
  rw [hasm, List.append_nil]
  rfl

theorem homeDirSubstitution_long_home :
    homeDirSubstitution { HOME := some (List.replicate 4096 'h'), pwDir := none } "~".toList 1
      = .ok (List.replicate 4095 'h') := by
  rw [homeDirSubstitution_bare_tilde (List.replicate 4096 'h') none
    (by
      intro h
      have h5 := congrArg List.length h
      rw [List.length_replicate] at h5
      exact absurd h5 (by decide)),
    List.take_replicate]
  rfl

/-- Claim C12 as stated fails. With `HOME` set to a value of 4096 characters the
token `~` becomes the first 4095 of them, `strlcpy` bounding the copy by
`PATH_MAX`; and a token `~` followed by a name of 71 characters overruns the
71 bytes of the user-name array. -/
theorem homeDirSubstitution_cuts_long_home :
    homeDirSubstitution { HOME := some (List.replicate 4096 'h'), pwDir := none } "~".toList 1
      = .ok (List.replicate 4095 'h') ∧
    List.replicate 4095 'h' ≠ List.replicate 4096 'h' ++ [] ∧
    homeDirSubstitution homeEnv ('~' :: List.replicate 71 'a') 72 = .error .outOfBounds := by
  refine ⟨homeDirSubstitution_long_home, ?_, by decide⟩
  intro h
  have h5 := congrArg List.length h
  rw [List.length_append, List.length_replicate, List.length_replicate] at h5
  exact absurd h5 (by decide)

/-! ## History navigation in `getInput` -/

theorem tokenVector_slot (entries : List CStr) (extra k : Nat) (hk : k < entries.length) :
    (tokenVector entries extra).arr.getD k none = some (entries.getD k []) := by
  unfold tokenVector
  simp only [List.getD_eq_getElem?_getD]
  rw [List.getElem?_append_left (by rw [List.length_map]; exact hk), List.getElem?_map,
    List.getElem?_eq_getElem hk]
  rfl

theorem nthRecent_mem (entries : List CStr) (k : Nat) (h1 : 0 < k) (h2 : k ≤ entries.length) :
    nthRecent entries k ∈ entries := by
  unfold nthRecent
  have hk : entries.length - k < entries.length := by omega
  rw [List.getD_eq_getElem?_getD, List.getElem?_eq_getElem hk]
  exact List.getElem_mem hk

theorem bufferString_snprintfString (buffer : List Char) (size : Nat) (e : CStr)
    (hsize : 0 < size) (hnul : NUL ∉ e) (hlen : e.length < size) :
    snprintfString buffer size e = e ++ [NUL] ++ buffer.drop (e.length + 1) ∧
      bufferString (snprintfString buffer size e) = e := by
  have h1 : snprintfString buffer size e = e ++ [NUL] ++ buffer.drop (e.length + 1) := by
    unfold snprintfString
    rw [if_neg (by omega), List.take_of_length_le (by omega)]
  refine ⟨h1, ?_⟩
  rw [h1]
  unfold bufferString
  rw [List.append_assoc, List.takeWhile_append_of_pos]
  · simp
  · intro c hc
    simp only [ne_eq, decide_eq_true_eq]
    rintro rfl
    exact hnul hc

theorem bufferString_memsetZero (buffer : List Char) (size : Nat) (hsize : 0 < size) :
    bufferString (memsetZero buffer size) = [] := by
  unfold bufferString memsetZero
  obtain ⟨m, rfl⟩ : ∃ m, size = m + 1 := ⟨size - 1, by omega⟩
  simp [List.replicate_succ]

theorem historyUp_below (size : Nat) (entries : List CStr) (extra : Nat) (st : EditorState)
    (hsize : 0 < size) (hent : ∀ e ∈ entries, NUL ∉ e ∧ e.length < size)
    (hlt : st.historyPos < entries.length) :
    historyUp size (tokenVector entries extra) st
      = .ok { buffer := snprintfString st.buffer size (nthRecent entries (st.historyPos + 1)),
              i := (nthRecent entries (st.historyPos + 1)).length,
              historyPos := st.historyPos + 1 } := by
  have hmem := hent _ (nthRecent_mem entries (st.historyPos + 1) (by omega) (by omega))
  have hb := (bufferString_snprintfString st.buffer size _ hsize hmem.1 hmem.2).2
  have hsz : (tokenVector entries extra).size = entries.length := rfl
  unfold historyUp
  rw [hsz, if_neg (by omega), tokenVector_slot entries extra _ (by omega)]
  simp only []
  have hn : entries.getD (entries.length - (st.historyPos + 1)) []
      = nthRecent entries (st.historyPos + 1) := rfl
  rw [hn, hb]
  have hl : strnlen (nthRecent entries (st.historyPos + 1)) size
      = (nthRecent entries (st.historyPos + 1)).length := by
    unfold strnlen
    omega
  rw [hl]

theorem historyUp_at_end (size : Nat) (entries : List CStr) (extra : Nat) (st : EditorState)
    (hge : entries.length ≤ st.historyPos) :
    historyUp size (tokenVector entries extra) st = .ok st := by
  have hsz : (tokenVector entries extra).size = entries.length := rfl
  unfold historyUp
  rw [hsz, if_pos (by omega)]

theorem historyDown_above_one (size : Nat) (entries : List CStr) (extra : Nat)
    (st : EditorState) (hsize : 0 < size) (hent : ∀ e ∈ entries, NUL ∉ e ∧ e.length < size)
    (h1 : 1 < st.historyPos) (hle : st.historyPos ≤ entries.length) :
    historyDown size (tokenVector entries extra) st
      = .ok { buffer := snprintfString st.buffer size (nthRecent entries (st.historyPos - 1)),
              i := (nthRecent entries (st.historyPos - 1)).length,
              historyPos := st.historyPos - 1 } := by
  have hmem := hent _ (nthRecent_mem entries (st.historyPos - 1) (by omega) (by omega))
  have hb := (bufferString_snprintfString st.buffer size _ hsize hmem.1 hmem.2).2
  have hsz : (tokenVector entries extra).size = entries.length := rfl
  unfold historyDown
  rw [hsz, if_neg (by omega), if_neg (by omega), tokenVector_slot entries extra _ (by omega)]
  simp only []
  have hn : entries.getD (entries.length - (st.historyPos - 1)) []
      = nthRecent entries (st.historyPos - 1) := rfl
  rw [hn, hb]
  have hl : strnlen (nthRecent entries (st.historyPos - 1)) size
      = (nthRecent entries (st.historyPos - 1)).length := by
    unfold strnlen
    omega
  rw [hl]

theorem historyDown_at_one (size : Nat) (history : Vector) (st : EditorState)
    (h1 : st.historyPos = 1) :
    historyDown size history st
      = .ok { buffer := memsetZero st.buffer size, i := 0, historyPos := 0 } := by
  unfold historyDown
  rw [if_neg (by omega), if_pos (by omega), h1]

theorem historyDown_at_zero (size : Nat) (history : Vector) (st : EditorState)
    (h0 : st.historyPos = 0) : historyDown size history st = .ok st := by
  unfold historyDown
  rw [if_pos h0]

theorem getInputLoop_up (env : Env) (fs : FileSystem) (size : Nat) (history : Vector)
    (rest : List Char) (st : EditorState) :
    getInputLoop env fs size history (Char.ofNat 0x1b :: Char.ofNat 0x5b :: 'A' :: rest) st
      = match historyUp size history st with
        | .error e => .error e
        | .ok st => getInputLoop env fs size history rest st := rfl

theorem getInputLoop_down (env : Env) (fs : FileSystem) (size : Nat) (history : Vector)
    (rest : List Char) (st : EditorState) :
    getInputLoop env fs size history (Char.ofNat 0x1b :: Char.ofNat 0x5b :: 'B' :: rest) st
      = match historyDown size history st with
        | .error e => .error e
        | .ok st => getInputLoop env fs size history rest st := rfl

theorem getInputLoop_escape (env : Env) (fs : FileSystem) (size : Nat) (history : Vector)
    (c : Char) (rest : List Char) (st : EditorState) :
    getInputLoop env fs size history (Char.ofNat 0x1b :: c :: rest) st
      = if c = Char.ofNat 0x5b then
          match rest with
          | [] => .ok (.reading st)
          | c3 :: rest3 =>
            if c3 = 'A' then
              match historyUp size history st with
              | .error e => .error e
              | .ok st => getInputLoop env fs size history rest3 st
            else if c3 = 'B' then
              match historyDown size history st with
              | .error e => .error e
              | .ok st => getInputLoop env fs size history rest3 st
            else getInputLoop env fs size history rest3 st
        else getInputLoop env fs size history rest st := by
  cases rest <;> rfl

theorem getInputLoop_other_suffix (env : Env) (fs : FileSystem) (size : Nat) (history : Vector)
    (c : Char) (rest : List Char) (st : EditorState) :
    (c ≠ Char.ofNat 0x5b →
      getInputLoop env fs size history (Char.ofNat 0x1b :: c :: rest) st
        = getInputLoop env fs size history rest st) ∧
    (c ≠ 'A' → c ≠ 'B' →
      getInputLoop env fs size history (Char.ofNat 0x1b :: Char.ofNat 0x5b :: c :: rest) st
        = getInputLoop env fs size history rest st) := by
  constructor
  · intro hc
    rw [getInputLoop_escape, if_neg hc]
  · intro hA hB
    rw [getInputLoop_escape, if_pos rfl]
    simp only []
    rw [if_neg hA, if_neg hB]

theorem getInputLoop_arrowKeys (env : Env) (fs : FileSystem) (size : Nat)
    (entries : List CStr) (extra : Nat) (hsize : 0 < size)
    (hent : ∀ e ∈ entries, NUL ∉ e ∧ e.length < size) :
    ∀ (ks : List Bool) (st : EditorState), st.historyPos ≤ entries.length →
      ∃ st', getInputLoop env fs size (tokenVector entries extra) (arrowKeys ks) st
          = .ok (.reading st') ∧ st'.historyPos ≤ entries.length := by
  intro ks
  induction ks with
  | nil => exact fun st hst => ⟨st, rfl, hst⟩
  | cons up ks ih =>
    intro st hst
    cases up with
    | true =>
      have hk : arrowKeys (true :: ks)
          = Char.ofNat 0x1b :: Char.ofNat 0x5b :: 'A' :: arrowKeys ks := rfl
      rw [hk, getInputLoop_up]
      by_cases hlt : st.historyPos < entries.length
      · rw [historyUp_below size entries extra st hsize hent hlt]
        exact ih _ hlt
      · rw [historyUp_at_end size entries extra st (by omega)]
        exact ih st hst
    | false =>
      have hk : arrowKeys (false :: ks)
          = Char.ofNat 0x1b :: Char.ofNat 0x5b :: 'B' :: arrowKeys ks := rfl
      rw [hk, getInputLoop_down]
      by_cases h0 : st.historyPos = 0
      · rw [historyDown_at_zero size _ st h0]
        exact ih st hst
      · by_cases h1 : st.historyPos = 1
        · rw [historyDown_at_one size _ st h1]
          exact ih _ (Nat.zero_le _)
        · rw [historyDown_above_one size entries extra st hsize hent (by omega) hst]
          exact ih _ (show st.historyPos - 1 ≤ entries.length by omega)

/-- Claim C20, as amended. Let the History hold the lines `entries`, oldest
first, each shorter than the buffer size, which is not 0.  Whatever run
of Up and Down keys `getInput` reads, it is still reading afterwards and its
history offset is at most the number of entries.  Up at an offset `n` below
that number moves to `n + 1`, makes the buffer spell the `(n + 1)`-th most
recent entry and puts the cursor at its end; Up at the number of entries
changes nothing.  Down at an offset `n > 1` moves to `n - 1` and makes the
buffer spell the `(n - 1)`-th most recent entry; Down at offset 1 moves to 0,
zeroes the buffer and puts the cursor at 0; Down at offset 0 changes nothing.
An escape byte followed by anything but `[`, or by `[` and anything but `A` or
`B`, leaves buffer, cursor and offset as they were.  The History is only read:
every step goes on with the same History. -/
theorem getInput_history_navigation (env : Env) (fs : FileSystem) (size : Nat)
    (entries : List CStr) (extra : Nat) (hsize : 0 < size)
    (hent : ∀ e ∈ entries, NUL ∉ e ∧ e.length < size) :
    (∀ (buffer : List Char) (ks : List Bool), ∃ st,
      getInput env fs buffer size (tokenVector entries extra) (arrowKeys ks)
          = .ok (.reading st) ∧ st.historyPos ≤ entries.length) ∧
    (∀ (st : EditorState) (rest : List Char), st.historyPos < entries.length →
      getInputLoop env fs size (tokenVector entries extra)
          (Char.ofNat 0x1b :: Char.ofNat 0x5b :: 'A' :: rest) st
        = getInputLoop env fs size (tokenVector entries extra) rest
            { buffer := snprintfString st.buffer size (nthRecent entries (st.historyPos + 1)),
              i := (nthRecent entries (st.historyPos + 1)).length,
              historyPos := st.historyPos + 1 } ∧
      bufferString (snprintfString st.buffer size (nthRecent entries (st.historyPos + 1)))
        = nthRecent entries (st.historyPos + 1)) ∧
    (∀ (st : EditorState) (rest : List Char), st.historyPos = entries.length →
      getInputLoop env fs size (tokenVector entries extra)
          (Char.ofNat 0x1b :: Char.ofNat 0x5b :: 'A' :: rest) st
        = getInputLoop env fs size (tokenVector entries extra) rest st) ∧
    (∀ (st : EditorState) (rest : List Char), 1 < st.historyPos →
      st.historyPos ≤ entries.length →
      getInputLoop env fs size (tokenVector entries extra)
          (Char.ofNat 0x1b :: Char.ofNat 0x5b :: 'B' :: rest) st
        = getInputLoop env fs size (tokenVector entries extra) rest
            { buffer := snprintfString st.buffer size (nthRecent entries (st.historyPos - 1)),
              i := (nthRecent entries (st.historyPos - 1)).length,
              historyPos := st.historyPos - 1 } ∧
      bufferString (snprintfString st.buffer size (nthRecent entries (st.historyPos - 1)))
        = nthRecent entries (st.historyPos - 1)) ∧
    (∀ (st : EditorState) (rest : List Char), st.historyPos = 1 →
      getInputLoop env fs size (tokenVector entries extra)
          (Char.ofNat 0x1b :: Char.ofNat 0x5b :: 'B' :: rest) st
        = getInputLoop env fs size (tokenVector entries extra) rest
            { buffer := memsetZero st.buffer size, i := 0, historyPos := 0 } ∧
      bufferString (memsetZero st.buffer size) = []) ∧
    (∀ (st : EditorState) (rest : List Char), st.historyPos = 0 →
      getInputLoop env fs size (tokenVector entries extra)
          (Char.ofNat 0x1b :: Char.ofNat 0x5b :: 'B' :: rest) st
        = getInputLoop env fs size (tokenVector entries extra) rest st) ∧
    (∀ (st : EditorState) (c : Char) (rest : List Char),
      (c ≠ Char.ofNat 0x5b →
        getInputLoop env fs size (tokenVector entries extra) (Char.ofNat 0x1b :: c :: rest) st
          = getInputLoop env fs size (tokenVector entries extra) rest st) ∧
      (c ≠ 'A' → c ≠ 'B' →
        getInputLoop env fs size (tokenVector entries extra)
            (Char.ofNat 0x1b :: Char.ofNat 0x5b :: c :: rest) st
          = getInputLoop env fs size (tokenVector entries extra) rest st)) := by
  refine ⟨?_, ?_, ?_, ?_, ?_, ?_, ?_⟩
  · intro buffer ks
    unfold getInput
    rw [if_neg (by omega)]
    exact getInputLoop_arrowKeys env fs size entries extra hsize hent ks _ (Nat.zero_le _)
  · intro st rest hlt
    have hmem := hent _ (nthRecent_mem entries (st.historyPos + 1) (by omega) (by omega))
    rw [getInputLoop_up, historyUp_below size entries extra st hsize hent hlt]
    exact ⟨rfl, (bufferString_snprintfString st.buffer size _ hsize hmem.1 hmem.2).2⟩
  · intro st rest heq
    rw [getInputLoop_up, historyUp_at_end size entries extra st (by omega)]
  · intro st rest h1 hle
    have hmem := hent _ (nthRecent_mem entries (st.historyPos - 1) (by omega) (by omega))
    rw [getInputLoop_down, historyDown_above_one size entries extra st hsize hent h1 hle]
    exact ⟨rfl, (bufferString_snprintfString st.buffer size _ hsize hmem.1 hmem.2).2⟩
  · intro st rest h1
    rw [getInputLoop_down, historyDown_at_one size _ st h1]
    exact ⟨rfl, bufferString_memsetZero st.buffer size hsize⟩
  · intro st rest h0
    rw [getInputLoop_down, historyDown_at_zero size _ st h0]
  · intro st c rest
    exact getInputLoop_other_suffix env fs size _ c rest st

theorem bufferString_snprintfString_cut (buffer : List Char) (size : Nat) (e : CStr)
    (hsize : 0 < size) (hnul : NUL ∉ e) :
    bufferString (snprintfString buffer size e) = e.take (size - 1) := by
  unfold snprintfString bufferString
  rw [if_neg (by omega), List.append_assoc, List.takeWhile_append_of_pos]
  · simp
  · intro c hc
    simp only [ne_eq, decide_eq_true_eq]
    rintro rfl
    exact hnul (List.mem_of_mem_take hc)

theorem historyUp_first (size : Nat) (e : CStr) (extra : Nat) (buffer : List Char) :
    historyUp size (tokenVector [e] extra) { buffer := buffer, i := 0, historyPos := 0 }
      = .ok { buffer := snprintfString buffer size e,
              i := strnlen (bufferString (snprintfString buffer size e)) size,
              historyPos := 1 } := by
  have hslot : (tokenVector [e] extra).arr.getD ((tokenVector [e] extra).size - (0 + 1)) none
      = some e := tokenVector_slot0 e [] extra
  unfold historyUp
  simp only []
  rw [if_neg (by simp [tokenVector]), hslot]

theorem recall_of_full_line :
    bufferString (snprintfString (zeroPadded [] CMD_SIZE) CMD_SIZE (List.replicate CMD_SIZE 'a'))
      = List.replicate (CMD_SIZE - 1) 'a' := by
  rw [bufferString_snprintfString_cut _ _ _ (by decide)
    (fun h => absurd (List.eq_of_mem_replicate h) (by decide)), List.take_replicate]
  rfl

/-- Claim C20 as stated fails. A line of `CMD_SIZE` characters fills the buffer
of `main` and is stored in History whole.  Up at offset 0 then moves to offset
1, but `snprintf(buffer, size, ...)` writes only `CMD_SIZE - 1` of its
characters: the buffer is not set to the most recent entry.  The same happens
with the entry `abcd` and a buffer of 4 bytes, which is left holding `abc`. -/
theorem history_recall_cuts_full_line :
    getInput homeEnv readmeFs (zeroPadded [] CMD_SIZE) CMD_SIZE
        (tokenVector [List.replicate CMD_SIZE 'a'] 127)
        [Char.ofNat 0x1b, Char.ofNat 0x5b, 'A']
      = .ok (.reading
          { buffer := snprintfString (zeroPadded [] CMD_SIZE) CMD_SIZE
              (List.replicate CMD_SIZE 'a'),
            i := CMD_SIZE - 1, historyPos := 1 }) ∧
    bufferString (snprintfString (zeroPadded [] CMD_SIZE) CMD_SIZE (List.replicate CMD_SIZE 'a'))
      = List.replicate (CMD_SIZE - 1) 'a' ∧
    List.replicate (CMD_SIZE - 1) 'a' ≠ nthRecent [List.replicate CMD_SIZE 'a'] 1 ∧
    (getInput homeEnv readmeFs (zeroPadded [] 4) 4 (tokenVector ["abcd".toList] 127)
        [Char.ofNat 0x1b, Char.ofNat 0x5b, 'A']).map
      (fun r =>
        match r with
        | .reading st => some (bufferString st.buffer, st.i, st.historyPos)
        | .returned _ _ => none)
      = .ok (some ("abc".toList, 3, 1)) ∧
    nthRecent ["abcd".toList] 1 = "abcd".toList := by
  refine ⟨?_, recall_of_full_line, ?_, by decide, by decide⟩
  · unfold getInput
    rw [if_neg (by decide), getInputLoop_up, historyUp_first, recall_of_full_line]
    have hl : strnlen (List.replicate (CMD_SIZE - 1) 'a') CMD_SIZE = CMD_SIZE - 1 := by
      rw [strnlen, List.length_replicate]
      decide
    rw [hl]
    rfl
  · intro h
    have h5 := congrArg List.length h
    have hn : nthRecent [List.replicate CMD_SIZE 'a'] 1 = List.replicate CMD_SIZE 'a' := rfl
    rw [hn, List.length_replicate, List.length_replicate] at h5
    exact absurd h5 (by decide)

theorem getInput_history_navigation_witness :
    0 < 8 ∧ (∀ e ∈ ["ls".toList, "pwd".toList], NUL ∉ e ∧ e.length < 8) ∧
    ∃ st, getInput homeEnv readmeFs (List.replicate 8 NUL) 8
        (tokenVector ["ls".toList, "pwd".toList] 126) (arrowKeys [true, true, true, false])
          = .ok (.reading st) ∧
      st.historyPos ≤ ["ls".toList, "pwd".toList].length :=
  ⟨by decide, by decide,
    (getInput_history_navigation homeEnv readmeFs 8 ["ls".toList, "pwd".toList] 126
      (by decide) (by decide)).1 (List.replicate 8 NUL) [true, true, true, false]⟩

/-! ## `vectorRemove` -/

/-- Claim C24, the code at the vector `a`, `b` (capacity 8) and the string `c`,
which matches no element: `size--` stands after the loop and runs all the
same, so the size becomes 1 and `b` is no longer an element.  With `a`, `b`,
`a` and the string `a` the first `a` alone is removed; but in a vector that is
full (capacity 2) the write `arr[size] = NULL` lies past the array. -/
theorem vectorRemove_shrinks_without_match :
    vectorRemove (vectorInsert (vectorInsert (vectorInit 0) (some "a".toList) 1)
        (some "b".toList) 1) (some "c".toList) 2
      = .ok (true, { size := 1, capacity := 8,
                     arr := [some "a".toList, some "b".toList, none, none, none, none, none,
                       none] }) ∧
    (vectorRemove (tokenVector ["a".toList, "b".toList] 6) (some "c".toList) 2).map
        (fun r => r.2.elems)
      = .ok [some "a".toList] ∧
    (vectorRemove (tokenVector ["a".toList, "b".toList, "a".toList] 5) (some "a".toList) 2).map
        (fun r => r.2.elems)
      = .ok [some "b".toList, some "a".toList] ∧
    vectorRemove (vectorInsert (vectorInsert (vectorInit 2) (some "a".toList) 1)
        (some "b".toList) 1) (some "a".toList) 2
      = .error .outOfBounds := by
  decide

/-! ## Typing up to the end of the buffer -/

theorem getInputLoop_letter (env : Env) (fs : FileSystem) (size : Nat) (history : Vector)
    (rest : List Char) (st : EditorState) :
    getInputLoop env fs size history ('a' :: rest) st
      = match typeChar st 'a' with
        | .error e => .error e
        | .ok st => getInputLoop env fs size history rest st := by
  cases rest with
  | nil => rfl
  | cons c2 rest2 => cases rest2 <;> rfl

theorem getInputLoop_fill (env : Env) (fs : FileSystem) (size : Nat) (history : Vector)
    (rest : List Char) (pos : Nat) :
    ∀ (k j m : Nat),
      getInputLoop env fs size history (List.replicate k 'a' ++ rest)
          { buffer := List.replicate j 'a' ++ List.replicate (k + m) NUL, i := j,
            historyPos := pos }
        = getInputLoop env fs size history rest
          { buffer := List.replicate (j + k) 'a' ++ List.replicate m NUL, i := j + k,
            historyPos := pos } := by
  intro k
  induction k with
  | zero =>
    intro j m
    rw [List.replicate_zero, List.nil_append, Nat.zero_add, Nat.add_zero]
  | succ k ih =>
    intro j m
    have hset : (List.replicate j 'a' ++ List.replicate (k + 1 + m) NUL).set j 'a'
        = List.replicate (j + 1) 'a' ++ List.replicate (k + m) NUL := by
      have e1 : k + 1 + m = (k + m) + 1 := by omega
      rw [e1, List.replicate_succ, List.set_append_right _ _ (by rw [List.length_replicate]),
        List.length_replicate, Nat.sub_self, List.set_cons_zero, List.replicate_succ']
      simp only [List.append_assoc, List.singleton_append]
    rw [List.replicate_succ, List.cons_append, getInputLoop_letter]
    unfold typeChar
    rw [if_pos (by
      simp only [List.length_append, List.length_replicate]
      omega)]
    simp only [hset]
    have e2 : j + (k + 1) = j + 1 + k := by omega
    rw [e2]
    exact ih (j + 1) m

theorem getInput_fill (env : Env) (fs : FileSystem) (history : Vector) (n : Nat) (hn : n ≠ 0)
    (rest : List Char) :
    getInput env fs (zeroPadded [] n) n history (List.replicate n 'a' ++ rest)
      = getInputLoop env fs n history rest
          { buffer := List.replicate n 'a', i := n, historyPos := 0 } := by
  have h := getInputLoop_fill env fs n history rest 0 n 0 0
  rw [List.replicate_zero, List.nil_append, List.replicate_zero, List.append_nil, Nat.add_zero,
    Nat.zero_add] at h
  unfold getInput zeroPadded
  rw [if_neg hn, List.nil_append, List.length_nil, Nat.sub_zero]
  exact h

/-- Claim C23, the code at the buffer of `main` (`CMD_SIZE` zero bytes) and the
key `a` pressed `CMD_SIZE` times and once more.  After `CMD_SIZE` keys the
cursor index is `CMD_SIZE`, which is not below the size, and no byte of the
buffer is zero; the next key is written at `buffer[CMD_SIZE]`, past the
buffer. -/
theorem typed_characters_overrun_buffer :
    getInput homeEnv readmeFs (zeroPadded [] CMD_SIZE) CMD_SIZE (vectorInit 128)
        (List.replicate CMD_SIZE 'a')
      = .ok (.reading
          { buffer := List.replicate CMD_SIZE 'a', i := CMD_SIZE, historyPos := 0 }) ∧
    NUL ∉ List.replicate CMD_SIZE 'a' ∧
    getInput homeEnv readmeFs (zeroPadded [] CMD_SIZE) CMD_SIZE (vectorInit 128)
        (List.replicate (CMD_SIZE + 1) 'a')
      = .error .outOfBounds := by
  refine ⟨?_, ?_, ?_⟩
  · have h := getInput_fill homeEnv readmeFs (vectorInit 128) CMD_SIZE (by decide) []
    rw [List.append_nil] at h
    rw [h]
    rfl
  · intro h
    exact absurd (List.eq_of_mem_replicate h) (by decide)
  · rw [List.replicate_succ',
      getInput_fill homeEnv readmeFs (vectorInit 128) CMD_SIZE (by decide) ['a'],
      getInputLoop_letter]
    unfold typeChar
    rw [if_neg (by
      simp only [List.length_replicate]
      exact Nat.lt_irrefl _)]

/-! ## The builtin `exit` with arguments -/

theorem argvOf_tokenVector (toks : List CStr) (extra : Nat) :
    argvOf (tokenVector toks extra).arr = toks.map some := by
  unfold argvOf tokenVector
  rw [List.takeWhile_append_of_pos]
  · cases extra with
    | zero => simp
    | succ m => simp [List.replicate_succ]
  · intro o ho
    obtain ⟨t, _, rfl⟩ := List.mem_map.mp ho
    rfl

theorem builtinStage_exit_args (os : Os) (env : Env) (numCmds i extra : Nat) (s : Session)
    (args : List CStr) (hargs : args ≠ []) :
    builtinStage os env numCmds i (tokenVector ("exit".toList :: args) extra) s
      = .ok (.ret false { s with
          events := s.events ++ [.printed "exit: Command takes no arguments\n".toList] }) := by
  have hsz : (tokenVector ("exit".toList :: args) extra).size ≠ 1 := by
    have := List.length_pos.mpr hargs
    simp only [tokenVector, List.length_cons]
    omega
  unfold builtinStage
  rw [tokenVector_slot0]
  simp only
  rw [if_neg (by rw [strncmp_cd]; decide), if_pos ((strncmp_exit _).mpr rfl), if_pos hsz]

/-- Claim C22. For every session state and every behaviour of the operating
system, the single stage `exit` followed by one or more arguments makes
`checkBuiltinCmd` print `exit: Command takes no arguments` and return `false`:
the process does not exit, `tcsetattr` is not called, and the working directory
and the remembered previous directory keep their values.  `main` then hands the
stage to `processTokens`, which only adds the child it creates for it (or the
report of a failed `pipe`).  The History is a local of `main` that neither
function receives. -/
theorem exit_with_arguments (os : Os) (env : Env) (args : List CStr) (extra : Nat)
    (s : Session) (hargs : args ≠ []) :
    checkBuiltinCmd os env [tokenVector ("exit".toList :: args) extra] 1 s
      = .ok (.returned false
          { cwd := s.cwd, prevDir := s.prevDir,
            events := s.events ++ [.printed "exit: Command takes no arguments\n".toList] }) ∧
    runCommands os env [tokenVector ("exit".toList :: args) extra] 1 s
      = .ok (.returned false
          { cwd := s.cwd, prevDir := s.prevDir,
            events := s.events ++ [.printed "exit: Command takes no arguments\n".toList] ++
              (if os.spawnPipe 0 = false then [.perror "pipe".toList]
                else if os.spawnFork 0 then
                  [.spawned 0 (some "exit".toList) (("exit".toList :: args).map some)]
                else []) }) := by
  have h1 : checkBuiltinCmd os env [tokenVector ("exit".toList :: args) extra] 1 s
      = .ok (.returned false
          { cwd := s.cwd, prevDir := s.prevDir,
            events := s.events ++ [.printed "exit: Command takes no arguments\n".toList] }) := by
    rw [checkBuiltinCmd_single, builtinStage_exit_args os env 1 0 extra s args hargs]
  refine ⟨h1, ?_⟩
  have hcap : (tokenVector ("exit".toList :: args) extra).capacity ≠ 0 := by
    simp only [tokenVector, List.length_cons]
    omega
  unfold runCommands
  rw [h1]
  simp only [processTokens, Nat.one_ne_zero, if_false, List.take, processLoop, hcap,
    tokenVector_slot0, argvOf_tokenVector]
  cases hp : os.spawnPipe 0 <;> cases hf : os.spawnFork 0 <;> simp

theorem exit_with_arguments_witness :
    ["1".toList] ≠ [] ∧
    checkBuiltinCmd plainOs homeEnv [tokenVector ["exit".toList, "1".toList] 6] 1
        { cwd := "/tmp".toList, prevDir := "/home/u".toList, events := [] }
      = .ok (.returned false
          { cwd := "/tmp".toList, prevDir := "/home/u".toList,
            events := [.printed "exit: Command takes no arguments\n".toList] }) :=
  ⟨by decide,
    (exit_with_arguments plainOs homeEnv ["1".toList] 6
      { cwd := "/tmp".toList, prevDir := "/home/u".toList, events := [] } (by decide)).1⟩

/-! ## The tokens of `tokenizeInput` -/

theorem isDelimiter_iff (c : Char) : isDelimiter c = true ↔ (c = ' ' ∨ c = '\n') := by
  simp only [isDelimiter, decide_eq_true_eq]

theorem strtokLoop_eq_splitOnP (l : List Char) :
    ∀ cur : CStr, strtokLoop l cur
      = (List.splitOnP.go isDelimiter l cur.reverse).filter (fun t => !t.isEmpty) := by
  induction l with
  | nil =>
    intro cur
    cases cur with
    | nil => rfl
    | cons a cur =>
      simp only [strtokLoop, List.splitOnP.go, List.reverse_reverse]
      rfl
  | cons c l ih =>
    intro cur
    unfold strtokLoop List.splitOnP.go
    by_cases hd : c = ' ' ∨ c = '\n'
    · rw [if_pos hd, if_pos ((isDelimiter_iff c).mpr hd), List.reverse_reverse]
      have h0 := ih []
      rw [List.reverse_nil] at h0
      cases cur with
      | nil =>
        rw [if_pos rfl, h0]
        rfl
      | cons a cur =>
        rw [if_neg (List.cons_ne_nil _ _), h0]
        rfl
    · have hb : ¬ (isDelimiter c = true) := fun h => hd ((isDelimiter_iff c).mp h)
      rw [if_neg hd, if_neg hb, ih (cur ++ [c])]
      simp only [List.reverse_append, List.reverse_cons, List.reverse_nil, List.nil_append,
        List.singleton_append]

theorem strtokLoop_clean (l : List Char) :
    ∀ cur : CStr, (∀ c ∈ cur, c ≠ ' ' ∧ c ≠ '\n') →
      ∀ t ∈ strtokLoop l cur, t ≠ [] ∧ ∀ c ∈ t, c ≠ ' ' ∧ c ≠ '\n' := by
  induction l with
  | nil =>
    intro cur hcur t ht
    by_cases hc : cur = []
    · simp [strtokLoop, hc] at ht
    · simp only [strtokLoop, hc, if_false, List.mem_singleton] at ht
      subst ht
      exact ⟨hc, hcur⟩
  | cons a l ih =>
    intro cur hcur t ht
    unfold strtokLoop at ht
    by_cases hd : a = ' ' ∨ a = '\n'
    · rw [if_pos hd] at ht
      have hnil : ∀ c ∈ ([] : CStr), c ≠ ' ' ∧ c ≠ '\n' := fun c hc => absurd hc (List.not_mem_nil c)
      by_cases hc : cur = []
      · rw [if_pos hc] at ht
        exact ih [] hnil t ht
      · rw [if_neg hc] at ht
        rcases List.mem_cons.mp ht with ht | ht
        · subst ht
          exact ⟨hc, hcur⟩
        · exact ih [] hnil t ht
    · rw [if_neg hd] at ht
      refine ih (cur ++ [a]) (fun c hc => ?_) t ht
      rcases List.mem_append.mp hc with h | h
      · exact hcur c h
      · rw [List.mem_singleton] at h
        subst h
        exact ⟨fun h1 => hd (Or.inl h1), fun h2 => hd (Or.inr h2)⟩

theorem strtokLoop_flatten (l : List Char) :
    ∀ cur : CStr, (strtokLoop l cur).flatten = cur ++ l.filter (fun c => !isDelimiter c) := by
  induction l with
  | nil =>
    intro cur
    by_cases hc : cur = []
    · simp [strtokLoop, hc]
    · simp [strtokLoop, hc]
  | cons a l ih =>
    intro cur
    unfold strtokLoop
    by_cases hd : a = ' ' ∨ a = '\n'
    · have hb : isDelimiter a = true := (isDelimiter_iff a).mpr hd
      rw [if_pos hd]
      by_cases hc : cur = []
      · rw [if_pos hc, ih [], hc]
        simp [hb]
      · rw [if_neg hc, List.flatten_cons, ih []]
        simp [hb]
    · have hb : isDelimiter a = false := by
        cases h : isDelimiter a
        · rfl
        · exact absurd ((isDelimiter_iff a).mp h) hd
      rw [if_neg hd, ih (cur ++ [a])]
      simp [hb]

theorem strtokTokens_eq_maximalRuns (input : CStr) :
    strtokTokens input = maximalRuns isDelimiter input :=
  strtokLoop_eq_splitOnP input []

/-- Claim C21 as stated fails. A tab and a vertical tab (the key Ctrl-K) are
whitespace, and `strtok(input, " \n")` does not cut at them: `a`, tab, `b` comes
back as one token that contains the tab, where the runs of non-whitespace
characters are `a` and `b`. -/
theorem tokenizeInput_keeps_tab :
    (tokenizeInput "a\tb".toList CMD_SIZE).elems = [some "a\tb".toList] ∧
    isWhitespace (Char.ofNat 0x09) = true ∧ Char.ofNat 0x09 ∈ "a\tb".toList ∧
    maximalRuns isWhitespace "a\tb".toList = ["a".toList, "b".toList] ∧
    (tokenizeInput ("ls".toList ++ [Char.ofNat 0x0b] ++ "-l".toList) CMD_SIZE).elems
      = [some ("ls".toList ++ [Char.ofNat 0x0b] ++ "-l".toList)] ∧
    isWhitespace (Char.ofNat 0x0b) = true ∧
    maximalRuns isWhitespace ("ls".toList ++ [Char.ofNat 0x0b] ++ "-l".toList)
      = ["ls".toList, "-l".toList] := by
  decide

/-- Claim C21, as amended. For every input string of at most `size`
characters, `tokenizeInput` returns, in order of occurrence, exactly the
maximal runs of characters other than the space and the newline: no token is
empty, no token contains a space or a newline, and the tokens put together are
the input without its spaces and newlines, every other character being kept,
the other whitespace included. -/
theorem tokenizeInput_maximal_runs (input : CStr) (size : Nat) (hsize : input.length ≤ size) :
    (tokenizeInput input size).WF ∧
    (tokenizeInput input size).elems = (maximalRuns isDelimiter input).map some ∧
    (∀ t ∈ maximalRuns isDelimiter input, t ≠ [] ∧ ∀ c ∈ t, c ≠ ' ' ∧ c ≠ '\n') ∧
    (maximalRuns isDelimiter input).flatten = input.filter (fun c => !isDelimiter c) := by
  have hfold := foldl_vectorInsert (strtokTokens input) size
    (fun t ht => Nat.le_trans (strtokTokens_tokens input t ht).1 hsize) (vectorInit 0)
    (vectorInit_WF 0)
  have hruns := strtokTokens_eq_maximalRuns input
  refine ⟨hfold.1, ?_, ?_, ?_⟩
  · rw [tokenizeInput, hfold.2, vectorInit_elems, hruns]
    rfl
  · intro t ht
    rw [← hruns] at ht
    exact strtokLoop_clean input [] (fun c hc => absurd hc (List.not_mem_nil c)) t ht
  · rw [← hruns]
    exact strtokLoop_flatten input []

theorem tokenizeInput_maximal_runs_witness :
    "ls  -l\n".toList.length ≤ CMD_SIZE ∧
    (tokenizeInput "ls  -l\n".toList CMD_SIZE).elems = [some "ls".toList, some "-l".toList] :=
  ⟨by decide,
    ((tokenizeInput_maximal_runs "ls  -l\n".toList CMD_SIZE (by decide)).2.1).trans
      (by decide)⟩

end Shell
